import Mathlib

/-!
# Verification of the netfilter serialization layer
  (pkg/sentry/socket/netfilter/netfilter.go)

A shallow embedding of the iptables binary codec: the decoder (`SetEntries`
path), the encoder (`convertNetstackToBinary`), the verdict codec, and the
matcher/target extension parsing, together with theorems about the claims of
the specification.

Byte buffers are modelled as `List Nat`; every read normalizes the value
modulo 256, so an arbitrary list is interpreted as the byte slice of its
residues.  Machine integers are modelled as `Nat` (reduced mod `2^w` where
the Go code can overflow) and signed values as `Int`.

Errors: a decode result is `Option (Except Unit α)`:
  `none`                   models a Go panic / out-of-bounds slice access,
  `some (Except.error ())` models returning an error
                           (`syserr.ErrInvalidArgument` at the syscall layer),
  `some (Except.ok a)`     models success.
-/

set_option maxRecDepth 10000

namespace Netfilter

/-- Result type of a decode step: `none` is a panic / out-of-bounds access,
`some (Except.error ())` a recoverable rejection, `some (Except.ok a)` success. -/
abbrev DecRes (α : Type) := Option (Except Unit α)

/-- Recoverable rejection (`syserr.ErrInvalidArgument` / a returned Go `error`). -/
def perr {α : Type} : DecRes α := some (Except.error ())

/-- Successful decode. -/
def pok {α : Type} (a : α) : DecRes α := some (Except.ok a)

/-! ## Byte-buffer primitives -/

/-- The byte at index `i` of buffer `b` (0 beyond the end, reduced mod 256). -/
def byteAt (b : List Nat) (i : Nat) : Nat := b.getD i 0 % 256

/-- Little-endian 16-bit read at offset `i`. -/
def readU16 (b : List Nat) (i : Nat) : Nat := byteAt b i + 256 * byteAt b (i + 1)

/-- Little-endian 32-bit read at offset `i`. -/
def readU32 (b : List Nat) (i : Nat) : Nat :=
  byteAt b i + 256 * byteAt b (i + 1) + 65536 * byteAt b (i + 2) + 16777216 * byteAt b (i + 3)

/-- Interpret a 32-bit unsigned value as a two's-complement signed integer. -/
def toI32 (v : Nat) : Int := if v < 2 ^ 31 then (v : Int) else (v : Int) - 2 ^ 32

/-- Little-endian 32-bit read at offset `i`, as a signed `int32`. -/
def readI32 (b : List Nat) (i : Nat) : Int := toI32 (readU32 b i)

/-- Normalize a raw buffer slice into actual byte values. -/
def normBytes (b : List Nat) : List Nat := b.map (· % 256)

/-- Go's `[n]byte` → `string` conversion used by `.String()` on name fields:
the bytes strictly before the first NUL. -/
def goString (b : List Nat) : List Nat := (normBytes b).takeWhile (· ≠ 0)

/-- Go slice expression `b[i:j]`: defined only when `i ≤ j ≤ len b`
(otherwise Go panics, which we model as `none`). -/
def slice (b : List Nat) (i j : Nat) : Option (List Nat) :=
  if i ≤ j ∧ j ≤ b.length then some ((b.take j).drop i) else none

/-- `n` zero bytes. -/
def zeros (n : Nat) : List Nat := List.replicate n 0

/-- Little-endian 16-bit encoding. -/
def u16LE (v : Nat) : List Nat := [v % 256, v / 256 % 256]

/-- Little-endian 32-bit encoding. -/
def u32LE (v : Nat) : List Nat :=
  [v % 256, v / 256 % 256, v / 65536 % 256, v / 16777216 % 256]

/-- Little-endian 32-bit two's-complement encoding of a signed value. -/
def i32LE (z : Int) : List Nat := u32LE (z % (2 ^ 32 : Int)).toNat

/-- Go `uint16` subtraction `a - b` (wraps modulo `2^16`). -/
def sub16 (a b : Nat) : Nat := (a % 65536 + 65536 - b % 65536) % 65536

/-! ## ABI constants

Modelled from the spec: the fixed record shapes of the legacy (Linux
netfilter) ABI — declared in `pkg/abi/linux`, which is not part of the
analyzed source file.  Field widths follow §3/§4.1 of the spec and the
legacy ABI they mirror. -/

def SizeOfIPTReplace : Nat := 96
def SizeOfIPTEntry : Nat := 112
def SizeOfXTEntryMatch : Nat := 32
def SizeOfXTEntryTarget : Nat := 32
def SizeOfXTStandardTarget : Nat := 40
def SizeOfXTErrorTarget : Nat := 64
def XT_TABLE_MAXNAMELEN : Nat := 32
def NF_INET_NUMHOOKS : Nat := 5

/-- Modelled from the spec: legacy ABI verdict constants (§4.2). -/
def NF_DROP : Int := 0
def NF_ACCEPT : Int := 1
def NF_QUEUE : Int := 3
def NF_RETURN : Int := -5

/-- `"filter"` as bytes (`iptables.TablenameFilter`). -/
def filterName : List Nat := [102, 105, 108, 116, 101, 114]

/-- `"ERROR"` as bytes (`errorTargetName`). -/
def errorTargetName : List Nat := [69, 82, 82, 79, 82]

/-! ## The netstack iptables data model

Modelled from the spec (§3): the `pkg/tcpip/iptables` types are declared
outside the analyzed source file.  Supported matcher kinds are not
enumerated by the spec (§4.3/§9 describe a closed set of "current supported
kinds only" with a reject-unknown catch-all), so the closed set is modelled
as empty: the `Matcher` variant type is uninhabited and every wire matcher
name is rejected as unknown. -/

/-- Abstract verdicts (`iptables.Verdict`). -/
inductive Verdict where
  | invalid
  | accept
  | drop
  | queue
  | ret
  | jump
deriving DecidableEq, Repr

/-- Modelled from the spec: the closed set of supported matcher kinds is
empty, so this variant type has no constructors. -/
inductive Matcher : Type
deriving DecidableEq

/-- Target variants (`iptables.Target`): the three currently-supported kinds. -/
inductive Target where
  | unconditionalAccept
  | unconditionalDrop
  | errorTarget
deriving DecidableEq, Repr

/-- `iptables.IPHeaderFilter`: only the transport protocol number. -/
structure IPHeaderFilter where
  protocol : Nat
deriving DecidableEq, Repr

/-- `iptables.Rule`. -/
structure Rule where
  filter : IPHeaderFilter
  target : Target
  matchers : List Matcher
deriving DecidableEq

/-- The `HookUnset` sentinel. -/
def HookUnset : Int := -1

/-- The builtin hooks (`iptables.Hook`). -/
inductive Hook where
  | prerouting
  | input
  | forward
  | output
  | postrouting
deriving DecidableEq, Repr

/-- The numeric value of each hook (matches the linux `NF_INET_*` order). -/
def hookIndex : Hook → Nat
  | .prerouting => 0
  | .input => 1
  | .forward => 2
  | .output => 3
  | .postrouting => 4

/-- `hookFromLinux`: linux hook number → `iptables.Hook`
(`none` models the panic on an unknown hook number). -/
def hookFromLinux : Nat → Option Hook
  | 0 => some .prerouting
  | 1 => some .input
  | 2 => some .forward
  | 3 => some .output
  | 4 => some .postrouting
  | _ => none

/-- Modelled from the spec: the filter table's per-hook rule-index map.  The
filter-kind table supports exactly the input, forward and output chains (the
legacy ABI's filter table), so the map is represented with one field per
supported hook. -/
structure HookIdx where
  input : Int
  forward : Int
  output : Int
deriving DecidableEq, Repr

/-- Map lookup; the unsupported hooks are never looked up by the code. -/
def HookIdx.get : HookIdx → Hook → Int
  | h, .input => h.input
  | h, .forward => h.forward
  | h, .output => h.output
  | _, _ => HookUnset

/-- Map update; the unsupported hooks are never assigned by the code. -/
def HookIdx.set : HookIdx → Hook → Int → HookIdx
  | h, .input, v => { h with input := v }
  | h, .forward, v => { h with forward := v }
  | h, .output, v => { h with output := v }
  | h, _, _ => h

/-- `iptables.Table` (filter-shaped: its chain maps have exactly the
filter table's keys). -/
structure Table where
  rules : List Rule
  builtinChains : HookIdx
  underflows : HookIdx
deriving DecidableEq

/-- `Table.ValidHooks`: the bitmap of the table's builtin chains.  For the
filter-shaped table the keys are input (1), forward (2) and output (3),
so the bitmap is `1<<1 | 1<<2 | 1<<3 = 14`. -/
def Table.ValidHooks (_ : Table) : Nat := 14

/-- Modelled from the spec: `iptables.EmptyFilterTable` — an empty table
whose supported chains are all `HookUnset`. -/
def EmptyFilterTable : Table :=
  { rules := []
    builtinChains := { input := HookUnset, forward := HookUnset, output := HookUnset }
    underflows := { input := HookUnset, forward := HookUnset, output := HookUnset } }

/-- The `metadata` struct saved alongside an installed table. -/
structure Meta where
  hookEntry : List Nat
  underflow : List Nat
  numEntries : Nat
  size : Nat
deriving DecidableEq, Repr

/-! ## Verdict codec -/

/-- `translateFromStandardVerdict`: abstract verdict → signed wire value.
`none` models the panic on `Jump` and on an unknown verdict. -/
def translateFromStandardVerdict : Verdict → Option Int
  | .accept => some (-NF_ACCEPT - 1)
  | .drop => some (-NF_DROP - 1)
  | .queue => some (-NF_QUEUE - 1)
  | .ret => some NF_RETURN
  | .jump => none
  | .invalid => none

/-- The distinct error outcomes of `translateToStandardVerdict`. -/
inductive VerdictError where
  | unsupportedQUEUE
  | unsupportedRETURN
  | unknownVerdict
deriving DecidableEq, Repr

/-- `translateToStandardVerdict`: signed wire value → abstract verdict or a
recoverable error (the Go function returns `(iptables.Invalid, err)`). -/
def translateToStandardVerdict (val : Int) : Except VerdictError Verdict :=
  if val = -NF_ACCEPT - 1 then .ok .accept
  else if val = -NF_DROP - 1 then .ok .drop
  else if val = -NF_QUEUE - 1 then .error .unsupportedQUEUE
  else if val = NF_RETURN then .error .unsupportedRETURN
  else .error .unknownVerdict

/-! ## Wire struct decoding

Each `decodeX` reads the fields of the corresponding `linux` ABI struct from
an exactly-sized buffer obtained by a (bounds-checked) `slice`; this mirrors
`binary.Unmarshal(optVal[:SizeOfX], usermem.ByteOrder, &x)`.  Fields the
analyzed code never reads (`NFCache`, `Comeback`, `Counters`,
`NumCounters`, revisions) are not modelled. -/

/-- Extract `n` bytes starting at offset `i` (values normalized mod 256). -/
def extract (b : List Nat) (i n : Nat) : List Nat := normBytes ((b.drop i).take n)

/-- The string of a (normalized) fixed-size name field: bytes before the
first NUL. -/
def strOf (l : List Nat) : List Nat := l.takeWhile (· ≠ 0)

/-- `linux.XTEntryMatch` (size 32): `MatchSize uint16; Name [29]byte;
Revision uint8`. -/
structure XTEntryMatch where
  matchSize : Nat
  name : List Nat
deriving DecidableEq, Repr

def decodeXTEntryMatch (b : List Nat) : XTEntryMatch :=
  { matchSize := readU16 b 0, name := extract b 2 29 }

/-- `linux.XTEntryTarget` (size 32): `TargetSize uint16; Name [29]byte;
Revision uint8`. -/
structure XTEntryTarget where
  targetSize : Nat
  name : List Nat
deriving DecidableEq, Repr

def decodeXTEntryTarget (b : List Nat) : XTEntryTarget :=
  { targetSize := readU16 b 0, name := extract b 2 29 }

/-- `linux.XTStandardTarget` (size 40): entry-target header, `Verdict int32`,
4 bytes padding. -/
structure XTStandardTarget where
  target : XTEntryTarget
  verdict : Int
deriving DecidableEq, Repr

def decodeXTStandardTarget (b : List Nat) : XTStandardTarget :=
  { target := decodeXTEntryTarget b, verdict := readI32 b 32 }

/-- `linux.XTErrorTarget` (size 64): entry-target header, `Name [30]byte`,
2 bytes padding. -/
structure XTErrorTarget where
  target : XTEntryTarget
  name : List Nat
deriving DecidableEq, Repr

def decodeXTErrorTarget (b : List Nat) : XTErrorTarget :=
  { target := decodeXTEntryTarget b, name := extract b 32 30 }

/-- `linux.IPTIP` (size 84, at offset 0 of an entry): four 4-byte addresses,
four 16-byte interface names, `Protocol uint16`, `Flags`, `InverseFlags`. -/
structure IPTIP where
  src : List Nat
  dst : List Nat
  srcMask : List Nat
  dstMask : List Nat
  inputInterface : List Nat
  outputInterface : List Nat
  inputInterfaceMask : List Nat
  outputInterfaceMask : List Nat
  protocol : Nat
  flags : Nat
  inverseFlags : Nat
deriving DecidableEq, Repr

def decodeIPTIP (b : List Nat) : IPTIP :=
  { src := extract b 0 4
    dst := extract b 4 4
    srcMask := extract b 8 4
    dstMask := extract b 12 4
    inputInterface := extract b 16 16
    outputInterface := extract b 32 16
    inputInterfaceMask := extract b 48 16
    outputInterfaceMask := extract b 64 16
    protocol := readU16 b 80
    flags := byteAt b 82
    inverseFlags := byteAt b 83 }

/-- `linux.IPTEntry` (size 112): `IP IPTIP` (at 0), `NFCache uint32` (at 84,
unread), `TargetOffset uint16` (at 88), `NextOffset uint16` (at 90),
`Comeback uint32` and `Counters XTCounters` (unread). -/
structure IPTEntry where
  ip : IPTIP
  targetOffset : Nat
  nextOffset : Nat
deriving DecidableEq, Repr

def decodeIPTEntry (b : List Nat) : IPTEntry :=
  { ip := decodeIPTIP b, targetOffset := readU16 b 88, nextOffset := readU16 b 90 }

/-- `linux.IPTReplace` (size 96): `Name [32]byte`, `ValidHooks uint32` (at
32), `NumEntries uint32` (at 36), `Size uint32` (at 40),
`HookEntry [5]uint32` (at 44), `Underflow [5]uint32` (at 64),
`NumCounters uint32` and `Counters uint64` (unread). -/
structure IPTReplace where
  name : List Nat
  validHooks : Nat
  numEntries : Nat
  size : Nat
  hookEntry : List Nat
  underflow : List Nat
deriving DecidableEq, Repr

def decodeIPTReplace (b : List Nat) : IPTReplace :=
  { name := extract b 0 32
    validHooks := readU32 b 32
    numEntries := readU32 b 36
    size := readU32 b 40
    hookEntry := [readU32 b 44, readU32 b 48, readU32 b 52, readU32 b 56, readU32 b 60]
    underflow := [readU32 b 64, readU32 b 68, readU32 b 72, readU32 b 76, readU32 b 80] }

/-! ## Decoding: filter, target, matchers -/

/-- `containsUnsupportedFields`: everything except the protocol must be
zeroed. -/
def containsUnsupportedFields (ip : IPTIP) : Bool :=
  decide (ip.dst ≠ zeros 4) || decide (ip.src ≠ zeros 4) ||
  decide (ip.srcMask ≠ zeros 4) || decide (ip.dstMask ≠ zeros 4) ||
  decide (ip.inputInterface ≠ zeros 16) || decide (ip.outputInterface ≠ zeros 16) ||
  decide (ip.inputInterfaceMask ≠ zeros 16) || decide (ip.outputInterfaceMask ≠ zeros 16) ||
  decide (ip.flags ≠ 0) || decide (ip.inverseFlags ≠ 0)

/-- `filterFromIPTIP`. -/
def filterFromIPTIP (iptip : IPTIP) : Except Unit IPHeaderFilter :=
  if containsUnsupportedFields iptip then .error ()
  else .ok { protocol := iptip.protocol }

/-- `parseTarget`: parses a target from `optVal`, which should contain only
the target. -/
def parseTarget (optVal : List Nat) : DecRes Target :=
  if optVal.length < SizeOfXTEntryTarget then perr else
  match slice optVal 0 SizeOfXTEntryTarget with
  | none => none
  | some buf =>
    let target := decodeXTEntryTarget buf
    if strOf target.name = [] then
      -- Standard target.
      if optVal.length ≠ SizeOfXTStandardTarget then perr else
      match slice optVal 0 SizeOfXTStandardTarget with
      | none => none
      | some buf2 =>
        let standardTarget := decodeXTStandardTarget buf2
        match translateToStandardVerdict standardTarget.verdict with
        | .error _ => perr
        | .ok .accept => pok .unconditionalAccept
        | .ok .drop => pok .unconditionalDrop
        | .ok _ => perr
    else if strOf target.name = errorTargetName then
      -- Error target.
      if optVal.length ≠ SizeOfXTErrorTarget then perr else
      match slice optVal 0 SizeOfXTErrorTarget with
      | none => none
      | some buf3 =>
        let errorTarget := decodeXTErrorTarget buf3
        if strOf errorTarget.name = errorTargetName then pok .errorTarget else perr
    else
      -- Unknown target.
      perr

/-- The body of the `parseMatchers` loop, with an explicit iteration budget
(`fuel`).  Each iteration consumes at least `SizeOfXTEntryMatch = 32` bytes,
so a budget of the region's length is always sufficient; the `fuel = 0`
artifact branch returns `none` and is proved unreachable for a sufficient
budget (`parseMatchersLoop_fuel`). -/
def parseMatchersLoop {M : Type} (um : XTEntryMatch → IPHeaderFilter → List Nat → Option M)
    (filter : IPHeaderFilter) : Nat → List Nat → DecRes (List M)
  | fuel, optVal =>
    if optVal.length = 0 then pok [] else
    if optVal.length < SizeOfXTEntryMatch then perr else
    match slice optVal 0 SizeOfXTEntryMatch with
    | none => none
    | some buf =>
      let m := decodeXTEntryMatch buf
      if m.matchSize < SizeOfXTEntryMatch then perr
      else if optVal.length < m.matchSize then perr
      else
        match slice optVal SizeOfXTEntryMatch m.matchSize with
        | none => none
        | some payload =>
          match um m filter payload with
          | none => perr
          | some matcher =>
            match slice optVal m.matchSize optVal.length with
            | none => none
            | some rest =>
              match fuel with
              | 0 => none
              | fuel' + 1 =>
                match parseMatchersLoop um filter fuel' rest with
                | none => none
                | some (.error e) => some (.error e)
                | some (.ok ms) => pok (matcher :: ms)

/-- `parseMatchers`: parses 0 or more matchers from `optVal`, which should
contain only the matchers.  Parametric in the per-kind unmarshal dispatch
(`unmarshalMatcher` in the source, which lives outside the analyzed file);
`um` returning `none` models its error return. -/
def parseMatchers {M : Type} (um : XTEntryMatch → IPHeaderFilter → List Nat → Option M)
    (filter : IPHeaderFilter) (optVal : List Nat) : DecRes (List M) :=
  parseMatchersLoop um filter optVal.length optVal

/-- Modelled from the spec: the per-kind matcher unmarshal dispatch.  The
closed set of supported kinds is empty, so every wire matcher name is
rejected as unknown. -/
def unmarshalMatcher : XTEntryMatch → IPHeaderFilter → List Nat → Option Matcher :=
  fun _ _ _ => none

/-! ## The `SetEntries` decoder pipeline -/

/-- Sequencing of decode results (propagates panics and rejections). -/
def decResBind {α β : Type} : DecRes α → (α → DecRes β) → DecRes β
  | none, _ => none
  | some (.error e), _ => some (.error e)
  | some (.ok a), f => f a

/-- The target part of one entry-loop iteration (lines 378–389): computes
the target region from the entry's declared offsets, parses the target and
returns the finished rule, the entry's declared `NextOffset`, and the
remaining bytes. -/
def parseEntryTarget (entry : IPTEntry) (filter : IPHeaderFilter)
    (matchers : List Matcher) (rest1 : List Nat) : DecRes (Rule × Nat × List Nat) :=
  -- uint16 arithmetic; this subtraction can wrap.
  let targetSize := sub16 entry.nextOffset entry.targetOffset
  if rest1.length < targetSize then perr else
  match slice rest1 0 targetSize with
  | none => none
  | some tregion =>
    match parseTarget tregion with
    | none => none
    | some (.error _) => perr
    | some (.ok target) =>
      match slice rest1 targetSize rest1.length with
      | none => none
      | some rest2 =>
        pok ({ filter := filter, target := target, matchers := matchers },
             entry.nextOffset, rest2)

/-- The matcher part of one entry-loop iteration (lines 363–376): computes
the matcher region from the entry's declared target offset and parses it. -/
def parseEntryMatchers (entry : IPTEntry) (filter : IPHeaderFilter)
    (rest0 : List Nat) : DecRes (Rule × Nat × List Nat) :=
  -- uint16 arithmetic; no wrap possible since targetOffset ≥ 112.
  let matchersSize := sub16 entry.targetOffset SizeOfIPTEntry
  if rest0.length < matchersSize then perr else
  match slice rest0 0 matchersSize with
  | none => none
  | some mregion =>
    match parseMatchers unmarshalMatcher filter mregion with
    | none => none
    | some (.error _) => perr
    | some (.ok matchers) =>
      match slice rest0 matchersSize rest0.length with
      | none => none
      | some rest1 => parseEntryTarget entry filter matchers rest1

/-- The header validation of one entry-loop iteration (lines 350–361):
target-offset sanity check and the IP-header filter. -/
def parseEntryHeader (entry : IPTEntry) (rest0 : List Nat) :
    DecRes (Rule × Nat × List Nat) :=
  if entry.targetOffset < SizeOfIPTEntry then perr else
  match filterFromIPTIP entry.ip with
  | .error _ => perr
  | .ok filter => parseEntryMatchers entry filter rest0

/-- The body of one iteration of the entry loop of `SetEntries` (lines
339–401): parses a single entry from the head of `optVal`, returning the
rule, the entry's declared `NextOffset` (by which the running offset
advances), and the remaining bytes. -/
def parseOneEntry (optVal : List Nat) : DecRes (Rule × Nat × List Nat) :=
  if optVal.length < SizeOfIPTEntry then perr else
  match slice optVal 0 SizeOfIPTEntry with
  | none => none
  | some buf =>
    match slice optVal SizeOfIPTEntry optVal.length with
    | none => none
    | some rest0 => parseEntryHeader (decodeIPTEntry buf) rest0

/-- The entry-parsing loop of `SetEntries` (lines 336–402): parses `count`
entries (`replace.NumEntries`), returning the parsed rules, the recorded
starting byte offset of each entry, and the unconsumed remainder of the
buffer.  `offset` is the `uint32` running offset. -/
def parseEntries : (count : Nat) → (optVal : List Nat) → (offset : Nat) →
    DecRes (List Rule × List Nat × List Nat)
  | 0, optVal, _ => pok ([], [], optVal)
  | n + 1, optVal, offset =>
    match parseOneEntry optVal with
    | none => none
    | some (.error e) => some (.error e)
    | some (.ok (rule, nextOff, rest)) =>
      match parseEntries n rest ((offset + nextOff) % 2 ^ 32) with
      | none => none
      | some (.error e) => some (.error e)
      | some (.ok (rules, offsets, rem)) =>
        pok (rule :: rules, offset :: offsets, rem)

/-- The offset-scan of the hook-resolution loop (lines 409–416): the
accumulator keeps the last rule index whose recorded offset equals the
declared one (or the initial value if none matches). -/
def resolveList : List (Nat × Nat) → Nat → Int → Int
  | [], _, acc => acc
  | (i, o) :: rest, declared, acc =>
    resolveList rest declared (if o = declared then (i : Int) else acc)

/-- One iteration of the hook-resolution loop (lines 406–426) for linux hook
number `hook`. -/
def resolveOne (rpl : IPTReplace) (offsets : List Nat) (t : Table) (hook : Nat) :
    DecRes Table :=
  if t.ValidHooks &&& (1 <<< hook) ≠ 0 then
    match hookFromLinux hook with
    | none => none
    | some hk =>
      let ci := resolveList offsets.enum (rpl.hookEntry.getD hook 0) (t.builtinChains.get hk)
      let ui := resolveList offsets.enum (rpl.underflow.getD hook 0) (t.underflows.get hk)
      let t' : Table := { t with builtinChains := t.builtinChains.set hk ci,
                                 underflows := t.underflows.set hk ui }
      if ci = HookUnset then perr
      else if ui = HookUnset then perr
      else pok t'
  else pok t

/-- The full hook-resolution loop over linux hooks 0–4. -/
def resolveStage (rpl : IPTReplace) (offsets : List Nat) (t : Table) : DecRes Table :=
  decResBind (resolveOne rpl offsets t 0) fun t0 =>
  decResBind (resolveOne rpl offsets t0 1) fun t1 =>
  decResBind (resolveOne rpl offsets t1 2) fun t2 =>
  decResBind (resolveOne rpl offsets t2 3) fun t3 =>
  resolveOne rpl offsets t3 4

/-- Go `l[i]` on an `Int` index (`none` models the index-out-of-range
panic). -/
def listGetI {α : Type} (l : List α) (i : Int) : Option α :=
  if i < 0 then none else l.get? i.toNat

/-- One check of the non-input-chain policy loop (lines 431–438): the given
(non-input) chain's entry rule must be an unconditional accept. -/
def checkChainAccept (t : Table) (hk : Hook) : DecRes Unit :=
  match listGetI t.rules (t.builtinChains.get hk) with
  | none => none
  | some r => if r.target = Target.unconditionalAccept then pok () else perr

/-- The non-input-chain policy loop: iterates the builtin chains, skipping
input. -/
def policyStage (t : Table) : DecRes Table :=
  decResBind (checkChainAccept t .forward) fun _ =>
  decResBind (checkChainAccept t .output) fun _ => pok t

/-- The metadata recorded on success (lines 446–451): the caller-declared
values, not recomputed from the parse. -/
def metaOfReplace (rpl : IPTReplace) : Meta :=
  { hookEntry := rpl.hookEntry, underflow := rpl.underflow,
    numEntries := rpl.numEntries, size := rpl.size }

/-- `SetEntries` after the replace header has been decoded: table-name
switch, entry parsing, hook resolution, policy check, metadata. -/
def setEntriesFromReplace (rpl : IPTReplace) (optVal : List Nat) :
    DecRes (Table × Meta) :=
  if strOf rpl.name = filterName then
    decResBind (parseEntries rpl.numEntries optVal 0) fun r =>
    let t : Table := { EmptyFilterTable with rules := r.1 }
    decResBind (resolveStage rpl r.2.1 t) fun t' =>
    decResBind (policyStage t') fun t'' =>
    pok (t'', metaOfReplace rpl)
  else perr

/-- `SetEntries` (without the store installation; see `SetEntriesStack`):
returns the table and metadata that would be installed. -/
def SetEntries (optVal : List Nat) : DecRes (Table × Meta) :=
  if optVal.length < SizeOfIPTReplace then perr else
  match slice optVal 0 SizeOfIPTReplace with
  | none => none
  | some replaceBuf =>
    match slice optVal SizeOfIPTReplace optVal.length with
    | none => none
    | some rest =>
      setEntriesFromReplace (decodeIPTReplace replaceBuf) rest

/-! ## The store (`stack.IPTables` / `stack.SetIPTables`) -/

/-- The stack's table store, an association of table names to installed
tables with their metadata. -/
abbrev Store := List (List Nat × (Table × Meta))

def storeGet : Store → List Nat → Option (Table × Meta)
  | [], _ => none
  | (k, v) :: r, n => if k = n then some v else storeGet r n

def storeSet : Store → List Nat → (Table × Meta) → Store
  | [], n, v => [(n, v)]
  | (k, w) :: r, n, v => if k = n then (n, v) :: r else (k, w) :: storeSet r n v

/-- The full `SetEntries` including installation: on success the new table
and metadata are installed under the replace header's name (which every
success path forces to be `"filter"`) in a single final step; on any
rejection the store is returned untouched. -/
def SetEntriesStack (s : Store) (optVal : List Nat) : Option (Except Unit Unit × Store) :=
  match SetEntries optVal with
  | none => none
  | some (.error e) => some (.error e, s)
  | some (.ok tm) => some (.ok (), storeSet s filterName tm)

/-! ## The encoder (`convertNetstackToBinary`) -/

/-- `marshalStandardTarget`: an `XTStandardTarget` block — 2-byte size, a
29-byte empty name, revision, the signed verdict, 4 bytes padding (`none`
models the panic of `translateFromStandardVerdict` on `Jump`). -/
def marshalStandardTarget (verdict : Verdict) : Option (List Nat) :=
  (translateFromStandardVerdict verdict).map fun v =>
    u16LE SizeOfXTStandardTarget ++ zeros 29 ++ [0] ++ i32LE v ++ zeros 4

/-- `marshalErrorTarget`: an `XTErrorTarget` block — both name fields are
`"ERROR"`. -/
def marshalErrorTarget : List Nat :=
  u16LE SizeOfXTErrorTarget ++ (errorTargetName ++ zeros 24) ++ [0] ++
    (errorTargetName ++ zeros 25) ++ zeros 2

/-- `marshalTarget` (`none` models the panic on an unknown target type —
unreachable, the variant type is closed). -/
def marshalTarget : Target → Option (List Nat)
  | .unconditionalAccept => marshalStandardTarget .accept
  | .unconditionalDrop => marshalStandardTarget .drop
  | .errorTarget => some marshalErrorTarget

/-- Modelled from the spec: `marshalMatcher` — the closed set of supported
matcher kinds is empty, so there is nothing to marshal. -/
def marshalMatcher (m : Matcher) : List Nat := nomatch m

/-- `linux.KernelIPTEntry`: the fields the encoder populates (everything
else stays zero). -/
structure KernelIPTEntry where
  protocol : Nat
  targetOffset : Nat
  nextOffset : Nat
  elems : List Nat
deriving DecidableEq, Repr

/-- `linux.KernelIPTGetEntries`: the fields the encoder populates. -/
structure KernelIPTGetEntries where
  name : List Nat
  size : Nat
  entrytable : List KernelIPTEntry
deriving DecidableEq, Repr

/-- The matcher-serialization loop of the encoder (lines 196–207):
accumulates `(NextOffset, TargetOffset, Elems)`; `none` models the
64-bit-alignment panic. -/
def appendMatchers : List Matcher → Nat × Nat × List Nat → Option (Nat × Nat × List Nat)
  | [], acc => some acc
  | m :: rest, (nOff, tOff, elems) =>
    let s := marshalMatcher m
    if s.length % 8 ≠ 0 then none
    else appendMatchers rest ((nOff + s.length) % 65536, (tOff + s.length) % 65536, elems ++ s)

/-- Encoding of a single rule as a wire entry (lines 185–216). -/
def encodeRuleEntry (r : Rule) : Option KernelIPTEntry :=
  match appendMatchers r.matchers (SizeOfIPTEntry, SizeOfIPTEntry, []) with
  | none => none
  | some (nOff, tOff, elems) =>
    match marshalTarget r.target with
    | none => none
    | some s =>
      if s.length % 8 ≠ 0 then none
      else some { protocol := r.filter.protocol % 65536,
                  targetOffset := tOff,
                  nextOffset := (nOff + s.length) % 65536,
                  elems := elems ++ s }

/-- The hook-entry bookkeeping at the top of the encoder loop (lines
171–183): if the current rule index is a chain entry (resp. underflow)
point, record the running offset in the metadata. -/
def updateMetaHooks (chains under : HookIdx) (m : Meta) (ruleIdx size : Nat) : Meta :=
  let he := m.hookEntry
  let he := if chains.input = (ruleIdx : Int) then he.set 1 size else he
  let he := if chains.forward = (ruleIdx : Int) then he.set 2 size else he
  let he := if chains.output = (ruleIdx : Int) then he.set 3 size else he
  let uf := m.underflow
  let uf := if under.input = (ruleIdx : Int) then uf.set 1 size else uf
  let uf := if under.forward = (ruleIdx : Int) then uf.set 2 size else uf
  let uf := if under.output = (ruleIdx : Int) then uf.set 3 size else uf
  { m with hookEntry := he, underflow := uf }

/-- The rule loop of `convertNetstackToBinary` (lines 167–222): returns the
entry table, the final running size (`entries.Size`, a `uint32`) and the
metadata accumulated so far. -/
def convertLoop (chains under : HookIdx) :
    List Rule → Nat → Nat → Meta → Option (List KernelIPTEntry × Nat × Meta)
  | [], _, size, meta => some ([], size, meta)
  | r :: rest, ruleIdx, size, meta =>
    let meta1 := updateMetaHooks chains under meta ruleIdx size
    match encodeRuleEntry r with
    | none => none
    | some e =>
      match convertLoop chains under rest (ruleIdx + 1) ((size + e.nextOffset) % 2 ^ 32)
          { meta1 with numEntries := (meta1.numEntries + 1) % 2 ^ 32 } with
      | none => none
      | some (es, finalSize, metaF) => some (e :: es, finalSize, metaF)

/-- The all-zero metadata the encoder starts from. -/
def emptyMeta : Meta :=
  { hookEntry := List.replicate 5 0, underflow := List.replicate 5 0,
    numEntries := 0, size := 0 }

/-- `copy(entries.Name[:], tablename)`: the 32-byte name field. -/
def copyName (tablename : List Nat) : List Nat :=
  (normBytes tablename).take 32 ++ zeros (32 - tablename.length)

/-- `convertNetstackToBinary`: `some (.error ())` is the too-long-name
error, `none` an (unreachable) internal panic. -/
def convertNetstackToBinary (tablename : List Nat) (table : Table) :
    Option (Except Unit (KernelIPTGetEntries × Meta)) :=
  if XT_TABLE_MAXNAMELEN < tablename.length then some (.error ()) else
  match convertLoop table.builtinChains table.underflows table.rules 0 0 emptyMeta with
  | none => none
  | some (es, size, meta) =>
    some (.ok ({ name := copyName tablename, size := size, entrytable := es },
               { meta with size := size }))

/-! ## Serialization of encoded entries back to bytes

This is what `binary.Marshal` produces for a `KernelIPTEntry` when the
caller reads the table back: the 112-byte entry header (only the protocol,
target-offset and next-offset fields are nonzero) followed by the
matcher/target blocks. -/

def serializeKernelEntry (e : KernelIPTEntry) : List Nat :=
  zeros 80 ++ u16LE e.protocol ++ zeros 2 ++ zeros 4 ++
    u16LE e.targetOffset ++ u16LE e.nextOffset ++ zeros 4 ++ zeros 16 ++ e.elems

/-- An `IPTReplace` header as bytes, with the declared counts and offsets
taken from a metadata value. -/
def replaceHeaderBytes (name : List Nat) (validHooks : Nat) (m : Meta) : List Nat :=
  (normBytes name ++ zeros (32 - name.length)) ++ u32LE validHooks ++
    u32LE m.numEntries ++ u32LE m.size ++
    u32LE (m.hookEntry.getD 0 0) ++ u32LE (m.hookEntry.getD 1 0) ++
    u32LE (m.hookEntry.getD 2 0) ++ u32LE (m.hookEntry.getD 3 0) ++
    u32LE (m.hookEntry.getD 4 0) ++
    u32LE (m.underflow.getD 0 0) ++ u32LE (m.underflow.getD 1 0) ++
    u32LE (m.underflow.getD 2 0) ++ u32LE (m.underflow.getD 3 0) ++
    u32LE (m.underflow.getD 4 0) ++
    u32LE 0 ++ zeros 8

/-- The blob a caller would feed back to `SetEntries` after reading the
table: a replace header built from the encoder's output followed by the
serialized entries. -/
def reEncodeBlob (es : KernelIPTGetEntries) (m : Meta) : List Nat :=
  replaceHeaderBytes filterName 14 m ++
    (es.entrytable.map serializeKernelEntry).flatten

/-! ## Derived definitions used by the theorems -/

/-- The last index of `l` holding the value `d`, if any.  This is what the
hook-resolution scan (`resolveList` over `l.enum`) computes. -/
def lastMatchIdx (l : List Nat) (d : Nat) : Option Nat :=
  match l with
  | [] => none
  | x :: xs =>
    match lastMatchIdx xs d with
    | some j => some (j + 1)
    | none => if x = d then some 0 else none

/-- A serialized standard target with the given signed verdict value. -/
def stdTargetBytes (z : Int) : List Nat :=
  u16LE SizeOfXTStandardTarget ++ zeros 29 ++ [0] ++ i32LE z ++ zeros 4

/-- The bytes `marshalTarget` produces for each target variant. -/
def targetBytesOf : Target → List Nat
  | .unconditionalAccept => stdTargetBytes (-NF_ACCEPT - 1)
  | .unconditionalDrop => stdTargetBytes (-NF_DROP - 1)
  | .errorTarget => marshalErrorTarget

/-- The encoded size of a matcher-free rule's entry. -/
def entrySize (r : Rule) : Nat := SizeOfIPTEntry + (targetBytesOf r.target).length

/-- The starting byte offsets of a sequence of matcher-free rules beginning
at running offset `start` (`uint32` arithmetic). -/
def offsetsFrom (start : Nat) : List Rule → List Nat
  | [] => []
  | r :: rest => start :: offsetsFrom ((start + entrySize r) % 2 ^ 32) rest

/-- The running `uint32` size after encoding a sequence of matcher-free
rules starting from `s`. -/
def sizeAfter (s : Nat) : List Rule → Nat
  | [] => s
  | r :: rest => sizeAfter ((s + entrySize r) % 2 ^ 32) rest

/-- The wire entry the encoder emits for a matcher-free rule. -/
def encodeEntryOf (r : Rule) : KernelIPTEntry :=
  { protocol := r.filter.protocol % 65536
    targetOffset := SizeOfIPTEntry
    nextOffset := entrySize r
    elems := targetBytesOf r.target }

/-! ## Concrete test vectors -/

deriving instance DecidableEq for Except

/-- A serialized standard target with the Accept verdict (wire value `-2`). -/
def stdAcceptTargetBytes : List Nat := u16LE 40 ++ zeros 29 ++ [0] ++ i32LE (-2) ++ zeros 4

/-- A serialized entry: 112-byte header (protocol, target offset, next
offset; all other fields zero) followed by a target block. -/
def entryBytes (proto tOff nOff : Nat) (tgt : List Nat) : List Nat :=
  zeros 80 ++ u16LE proto ++ zeros 2 ++ zeros 4 ++ u16LE tOff ++ u16LE nOff ++
    zeros 4 ++ zeros 16 ++ tgt

/-- Metadata for a one-rule table whose declared values are accurate. -/
def testMeta : Meta :=
  { hookEntry := [0, 0, 0, 0, 0], underflow := [0, 0, 0, 0, 0], numEntries := 1, size := 152 }

/-- A well-formed replace blob: one unconditional-accept rule, all three
supported hooks entering and underflowing at offset 0. -/
def blob1 : List Nat :=
  replaceHeaderBytes filterName 14 testMeta ++ entryBytes 0 112 152 stdAcceptTargetBytes

/-- The single rule of `blob1`. -/
def rule1 : Rule :=
  { filter := { protocol := 0 }, target := Target.unconditionalAccept, matchers := [] }

/-- The table `blob1` decodes to. -/
def tbl1 : Table :=
  { rules := [rule1]
    builtinChains := { input := 0, forward := 0, output := 0 }
    underflows := { input := 0, forward := 0, output := 0 } }

/-- The unconditional-drop rule decoded from `blobDrop`. -/
def ruleDrop : Rule :=
  { filter := { protocol := 0 }, target := Target.unconditionalDrop, matchers := [] }

/-- The table (before the policy check) decoded from `blobDrop`. -/
def tblDrop : Table :=
  { rules := [ruleDrop]
    builtinChains := { input := 0, forward := 0, output := 0 }
    underflows := { input := 0, forward := 0, output := 0 } }

/-- A serialized standard target with the Drop verdict (wire value `-1`). -/
def stdDropTargetBytes : List Nat := u16LE 40 ++ zeros 29 ++ [0] ++ i32LE (-1) ++ zeros 4

/-- `testMeta` with an inaccurate declared total size. -/
def testMetaBadSize : Meta := { testMeta with size := 1 }

/-- A blob identical to `blob1` except that the replace header declares a
total size of 1 (the actual encoded size is 152). -/
def blobBadSize : List Nat :=
  replaceHeaderBytes filterName 14 testMetaBadSize ++ entryBytes 0 112 152 stdAcceptTargetBytes

/-- A blob whose single rule is an unconditional drop (so the non-input
chains' entry rule is not an unconditional accept). -/
def blobDrop : List Nat :=
  replaceHeaderBytes filterName 14 testMeta ++ entryBytes 0 112 152 stdDropTargetBytes

/-- `testMeta` with the input hook's declared entry offset pointing at byte
4, which is no rule's starting offset. -/
def testMetaBadHook : Meta := { testMeta with hookEntry := [0, 4, 0, 0, 0] }

/-- A blob whose declared input-hook entry offset matches no parsed rule
offset. -/
def blobBadHook : List Nat :=
  replaceHeaderBytes filterName 14 testMetaBadHook ++ entryBytes 0 112 152 stdAcceptTargetBytes

end Netfilter

namespace Netfilter

/-! ## Helper lemmas -/

theorem pok_inj {α : Type} {a b : α} : (pok a = pok b) ↔ a = b := by simp [pok]

theorem perr_ne_pok {α : Type} {a : α} : perr = pok a ↔ False := by simp [perr, pok]

theorem none_ne_pok {α : Type} {a : α} : (none : DecRes α) = pok a ↔ False := by simp [pok]

/-! ## Claim C2: the verdict codec -/

/-- **C2** — Verdict codec inverse: for Accept and Drop,
`translateToStandardVerdict (translateFromStandardVerdict v) = v` with no
error; the wire values for Queue (`-NF_QUEUE-1 = -4`) and Return
(`NF_RETURN = -5`) decode to an unsupported-verdict error (a recoverable
rejection, not a panic); every other value decodes to an unknown-verdict
error; and `parseTarget` can only ever produce the unconditional-accept,
unconditional-drop or error targets, never a Queue, Return or Jump
outcome. -/
theorem verdict_codec_inverse :
    (∀ v, v = Verdict.accept ∨ v = Verdict.drop →
      ∃ w, translateFromStandardVerdict v = some w ∧
        translateToStandardVerdict w = Except.ok v) ∧
    translateToStandardVerdict (-NF_QUEUE - 1) = Except.error VerdictError.unsupportedQUEUE ∧
    translateToStandardVerdict NF_RETURN = Except.error VerdictError.unsupportedRETURN ∧
    (∀ z : Int, z ≠ -2 ∧ z ≠ -1 ∧ z ≠ -4 ∧ z ≠ -5 →
      translateToStandardVerdict z = Except.error VerdictError.unknownVerdict) ∧
    (∀ b t, parseTarget b = pok t →
      t = Target.unconditionalAccept ∨ t = Target.unconditionalDrop ∨
        t = Target.errorTarget) := by
  refine ⟨?_, by decide, by decide, ?_, ?_⟩
  · rintro v (rfl | rfl)
    · exact ⟨-2, by decide⟩
    · exact ⟨-1, by decide⟩
  · intro z hz
    obtain ⟨h1, h2, h3, h4⟩ := hz
    simp only [translateToStandardVerdict, NF_ACCEPT, NF_DROP, NF_QUEUE, NF_RETURN]
    rw [if_neg (by omega), if_neg (by omega), if_neg (by omega), if_neg (by omega)]
  · intro b t h
    cases t
    · exact Or.inl rfl
    · exact Or.inr (Or.inl rfl)
    · exact Or.inr (Or.inr rfl)

/-- Witness for C2 at concrete inputs: Accept round-trips, `7` is an
unknown verdict, and a concrete accepted target block yields one of the
three supported targets. -/
theorem verdict_codec_inverse_witness :
    (∃ w, translateFromStandardVerdict Verdict.accept = some w ∧
      translateToStandardVerdict w = Except.ok Verdict.accept) ∧
    translateToStandardVerdict 7 = Except.error VerdictError.unknownVerdict ∧
    (Target.unconditionalAccept = Target.unconditionalAccept ∨
      Target.unconditionalAccept = Target.unconditionalDrop ∨
      Target.unconditionalAccept = Target.errorTarget) :=
  ⟨verdict_codec_inverse.1 Verdict.accept (Or.inl rfl),
   verdict_codec_inverse.2.2.2.1 7 (by decide),
   verdict_codec_inverse.2.2.2.2 stdAcceptTargetBytes Target.unconditionalAccept (by decide)⟩

/-! ## Claim C5: parseTarget acceptance condition -/

/-- Characterization of `parseTarget` acceptance (helper; the claim theorem
for C5 below restates it). -/
theorem parseTarget_characterization (b : List Nat) (t : Target) :
    parseTarget b = pok t ↔
      ((strOf (decodeXTEntryTarget (b.take SizeOfXTEntryTarget)).name = [] ∧
        b.length = SizeOfXTStandardTarget ∧
        ((translateToStandardVerdict
            (decodeXTStandardTarget (b.take SizeOfXTStandardTarget)).verdict =
              Except.ok Verdict.accept ∧ t = Target.unconditionalAccept) ∨
          (translateToStandardVerdict
            (decodeXTStandardTarget (b.take SizeOfXTStandardTarget)).verdict =
              Except.ok Verdict.drop ∧ t = Target.unconditionalDrop))) ∨
       (strOf (decodeXTEntryTarget (b.take SizeOfXTEntryTarget)).name = errorTargetName ∧
        b.length = SizeOfXTErrorTarget ∧
        strOf (decodeXTErrorTarget (b.take SizeOfXTErrorTarget)).name = errorTargetName ∧
        t = Target.errorTarget)) := by
  constructor
  · intro h
    unfold parseTarget at h
    repeat' split at h
    all_goals simp_all [pok_inj, perr_ne_pok, none_ne_pok, slice,
      SizeOfXTEntryTarget, SizeOfXTStandardTarget, SizeOfXTErrorTarget]
    all_goals (repeat' split at h)
    all_goals simp_all [pok_inj, perr_ne_pok, none_ne_pok]
  · intro hc
    rcases hc with ⟨hname, hlen, hcase⟩ | ⟨hname, hlen, hinner, rfl⟩
    · rcases hcase with ⟨hv, rfl⟩ | ⟨hv, rfl⟩ <;>
      · simp only [SizeOfXTEntryTarget, SizeOfXTStandardTarget] at hname hlen hv
        simp [parseTarget, slice, hname, hlen, hv,
          SizeOfXTEntryTarget, SizeOfXTStandardTarget, SizeOfXTErrorTarget]
    · simp only [SizeOfXTEntryTarget, SizeOfXTErrorTarget, errorTargetName] at hname hlen hinner
      simp [parseTarget, slice, hname, hlen, hinner, errorTargetName,
        SizeOfXTEntryTarget, SizeOfXTStandardTarget, SizeOfXTErrorTarget, pok, perr]

/-- **C5** — `parseTarget` succeeds in exactly two cases: (a) the target
header's name is empty, the slice length equals exactly the standard-target
block size, and the verdict decodes to Accept or Drop (yielding the
unconditional accept/drop target respectively), or (b) the header's name is
`"ERROR"`, the slice is exactly an error-target block, and the inner name
also equals `"ERROR"` (yielding the error target); every other input is
rejected. -/
theorem parseTarget_acceptance (b : List Nat) (t : Target) :
    parseTarget b = pok t ↔
      ((strOf (decodeXTEntryTarget (b.take SizeOfXTEntryTarget)).name = [] ∧
        b.length = SizeOfXTStandardTarget ∧
        ((translateToStandardVerdict
            (decodeXTStandardTarget (b.take SizeOfXTStandardTarget)).verdict =
              Except.ok Verdict.accept ∧ t = Target.unconditionalAccept) ∨
          (translateToStandardVerdict
            (decodeXTStandardTarget (b.take SizeOfXTStandardTarget)).verdict =
              Except.ok Verdict.drop ∧ t = Target.unconditionalDrop))) ∨
       (strOf (decodeXTEntryTarget (b.take SizeOfXTEntryTarget)).name = errorTargetName ∧
        b.length = SizeOfXTErrorTarget ∧
        strOf (decodeXTErrorTarget (b.take SizeOfXTErrorTarget)).name = errorTargetName ∧
        t = Target.errorTarget)) :=
  parseTarget_characterization b t

/-- Witness for C5: the acceptance condition instantiated at a concrete
accepted standard-target block. -/
theorem parseTarget_acceptance_witness :
    (strOf (decodeXTEntryTarget (stdAcceptTargetBytes.take SizeOfXTEntryTarget)).name = [] ∧
      stdAcceptTargetBytes.length = SizeOfXTStandardTarget ∧
      ((translateToStandardVerdict
          (decodeXTStandardTarget
            (stdAcceptTargetBytes.take SizeOfXTStandardTarget)).verdict =
            Except.ok Verdict.accept ∧
          Target.unconditionalAccept = Target.unconditionalAccept) ∨
        (translateToStandardVerdict
          (decodeXTStandardTarget
            (stdAcceptTargetBytes.take SizeOfXTStandardTarget)).verdict =
            Except.ok Verdict.drop ∧
          Target.unconditionalAccept = Target.unconditionalDrop))) ∨
    (strOf (decodeXTEntryTarget (stdAcceptTargetBytes.take SizeOfXTEntryTarget)).name =
        errorTargetName ∧
      stdAcceptTargetBytes.length = SizeOfXTErrorTarget ∧
      strOf (decodeXTErrorTarget (stdAcceptTargetBytes.take SizeOfXTErrorTarget)).name =
        errorTargetName ∧
      Target.unconditionalAccept = Target.errorTarget) :=
  (parseTarget_acceptance stdAcceptTargetBytes Target.unconditionalAccept).mp (by decide)

/-! ## Claim C6: parseMatchers exact exhaustion -/

theorem parseMatchersLoop_partition {M : Type}
    (um : XTEntryMatch → IPHeaderFilter → List Nat → Option M) (f : IPHeaderFilter) :
    ∀ (fuel : Nat) (b : List Nat), b.length ≤ fuel → ∀ ms,
      parseMatchersLoop um f fuel b = pok ms →
      ∃ chunks : List (List Nat), b = chunks.flatten ∧ chunks.length = ms.length ∧
        ∀ c ∈ chunks, SizeOfXTEntryMatch ≤ c.length ∧
          (decodeXTEntryMatch (c.take SizeOfXTEntryMatch)).matchSize = c.length := by
  intro fuel
  induction fuel with
  | zero =>
    intro b hb ms h
    have hb0 : b = [] := List.eq_nil_of_length_eq_zero (Nat.le_zero.mp hb)
    subst hb0
    unfold parseMatchersLoop at h
    simp [pok_inj] at h
    subst h
    exact ⟨[], by simp⟩
  | succ n IH =>
    intro b hb ms h
    unfold parseMatchersLoop at h
    by_cases h0 : b.length = 0
    · rw [if_pos h0] at h
      rw [pok_inj] at h
      subst h
      have hb0 : b = [] := List.eq_nil_of_length_eq_zero h0
      subst hb0
      exact ⟨[], by simp⟩
    · rw [if_neg h0] at h
      by_cases h32 : b.length < SizeOfXTEntryMatch
      · rw [if_pos h32] at h; simp [perr, pok] at h
      rw [if_neg h32] at h
      have hsl1 : slice b 0 SizeOfXTEntryMatch = some (b.take SizeOfXTEntryMatch) := by
        simp [slice]
        omega
      rw [hsl1] at h
      simp only [] at h
      by_cases hms : (decodeXTEntryMatch (b.take SizeOfXTEntryMatch)).matchSize <
          SizeOfXTEntryMatch
      · rw [if_pos hms] at h; simp [perr, pok] at h
      rw [if_neg hms] at h
      by_cases hlen : b.length < (decodeXTEntryMatch (b.take SizeOfXTEntryMatch)).matchSize
      · rw [if_pos hlen] at h; simp [perr, pok] at h
      rw [if_neg hlen] at h
      have hsl2 : slice b SizeOfXTEntryMatch
          (decodeXTEntryMatch (b.take SizeOfXTEntryMatch)).matchSize =
          some ((b.take (decodeXTEntryMatch (b.take SizeOfXTEntryMatch)).matchSize).drop
            SizeOfXTEntryMatch) := by
        simp [slice]
        omega
      rw [hsl2] at h
      simp only [] at h
      cases hum : um (decodeXTEntryMatch (b.take SizeOfXTEntryMatch)) f
          ((b.take (decodeXTEntryMatch (b.take SizeOfXTEntryMatch)).matchSize).drop
            SizeOfXTEntryMatch) with
      | none => rw [hum] at h; simp [perr, pok] at h
      | some matcher =>
        rw [hum] at h
        simp only [] at h
        have hsl3 : slice b (decodeXTEntryMatch (b.take SizeOfXTEntryMatch)).matchSize b.length =
            some (b.drop (decodeXTEntryMatch (b.take SizeOfXTEntryMatch)).matchSize) := by
          simp [slice, List.take_length]
          omega
        rw [hsl3] at h
        simp only [] at h
        cases hrec : parseMatchersLoop um f n
            (b.drop (decodeXTEntryMatch (b.take SizeOfXTEntryMatch)).matchSize) with
        | none => rw [hrec] at h; simp [pok] at h
        | some r =>
          rw [hrec] at h
          cases r with
          | error e => simp [perr, pok] at h
          | ok ms' =>
            simp only [pok, Option.some.injEq, Except.ok.injEq] at h
            subst h
            have hrest : (b.drop
                (decodeXTEntryMatch (b.take SizeOfXTEntryMatch)).matchSize).length ≤ n := by
              simp only [List.length_drop, SizeOfXTEntryMatch] at *
              omega
            obtain ⟨chunks, hflat, hlen', hall⟩ := IH _ hrest ms' hrec
            refine ⟨b.take (decodeXTEntryMatch (b.take SizeOfXTEntryMatch)).matchSize :: chunks,
              ?_, by simp [hlen'], ?_⟩
            · simp only [List.flatten_cons, ← hflat]
              exact (List.take_append_drop _ b).symm
            · intro c hc
              rcases List.mem_cons.mp hc with hc | hc
              · subst hc
                constructor
                · simp only [List.length_take, SizeOfXTEntryMatch] at *
                  omega
                · have htt : (b.take (decodeXTEntryMatch
                      (b.take SizeOfXTEntryMatch)).matchSize).take SizeOfXTEntryMatch =
                      b.take SizeOfXTEntryMatch := by
                    rw [List.take_take]
                    congr 1
                    simp only [SizeOfXTEntryMatch] at *
                    omega
                  rw [htt]
                  simp only [List.length_take, SizeOfXTEntryMatch] at *
                  omega
              · exact hall c hc

theorem parseMatchersLoop_no_none {M : Type}
    (um : XTEntryMatch → IPHeaderFilter → List Nat → Option M) (f : IPHeaderFilter) :
    ∀ (fuel : Nat) (b : List Nat), b.length ≤ fuel →
      parseMatchersLoop um f fuel b ≠ none := by
  intro fuel
  induction fuel with
  | zero =>
    intro b hb
    have hb0 : b = [] := List.eq_nil_of_length_eq_zero (Nat.le_zero.mp hb)
    subst hb0
    unfold parseMatchersLoop
    simp [pok]
  | succ n IH =>
    intro b hb
    unfold parseMatchersLoop
    by_cases h0 : b.length = 0
    · rw [if_pos h0]; simp [pok]
    rw [if_neg h0]
    by_cases h32 : b.length < SizeOfXTEntryMatch
    · rw [if_pos h32]; simp [perr]
    rw [if_neg h32]
    have hsl1 : slice b 0 SizeOfXTEntryMatch = some (b.take SizeOfXTEntryMatch) := by
      simp [slice]
      omega
    rw [hsl1]
    simp only []
    by_cases hms : (decodeXTEntryMatch (b.take SizeOfXTEntryMatch)).matchSize <
        SizeOfXTEntryMatch
    · rw [if_pos hms]; simp [perr]
    rw [if_neg hms]
    by_cases hlen : b.length < (decodeXTEntryMatch (b.take SizeOfXTEntryMatch)).matchSize
    · rw [if_pos hlen]; simp [perr]
    rw [if_neg hlen]
    have hsl2 : slice b SizeOfXTEntryMatch
        (decodeXTEntryMatch (b.take SizeOfXTEntryMatch)).matchSize =
        some ((b.take (decodeXTEntryMatch (b.take SizeOfXTEntryMatch)).matchSize).drop
          SizeOfXTEntryMatch) := by
      simp [slice]
      omega
    rw [hsl2]
    simp only []
    cases hum : um (decodeXTEntryMatch (b.take SizeOfXTEntryMatch)) f
        ((b.take (decodeXTEntryMatch (b.take SizeOfXTEntryMatch)).matchSize).drop
          SizeOfXTEntryMatch) with
    | none => simp [perr]
    | some matcher =>
      simp only []
      have hsl3 : slice b (decodeXTEntryMatch (b.take SizeOfXTEntryMatch)).matchSize b.length =
          some (b.drop (decodeXTEntryMatch (b.take SizeOfXTEntryMatch)).matchSize) := by
        simp [slice, List.take_length]
        omega
      rw [hsl3]
      simp only []
      have hrest : (b.drop
          (decodeXTEntryMatch (b.take SizeOfXTEntryMatch)).matchSize).length ≤ n := by
        simp only [List.length_drop, SizeOfXTEntryMatch] at *
        omega
      cases hrec : parseMatchersLoop um f n
          (b.drop (decodeXTEntryMatch (b.take SizeOfXTEntryMatch)).matchSize) with
      | none => exact absurd hrec (IH _ hrest)
      | some r =>
        cases r with
        | error e => simp
        | ok ms' => simp [pok]

theorem parseMatchers_reject_short {M : Type}
    (um : XTEntryMatch → IPHeaderFilter → List Nat → Option M) (f : IPHeaderFilter)
    (b : List Nat) (h1 : 0 < b.length) (h2 : b.length < SizeOfXTEntryMatch) :
    parseMatchers um f b = perr := by
  unfold parseMatchers parseMatchersLoop
  rw [if_neg (by omega), if_pos h2]

theorem parseMatchers_reject_first {M : Type}
    (um : XTEntryMatch → IPHeaderFilter → List Nat → Option M) (f : IPHeaderFilter)
    (b : List Nat) (h32 : SizeOfXTEntryMatch ≤ b.length)
    (hbad : (decodeXTEntryMatch (b.take SizeOfXTEntryMatch)).matchSize < SizeOfXTEntryMatch ∨
      b.length < (decodeXTEntryMatch (b.take SizeOfXTEntryMatch)).matchSize) :
    parseMatchers um f b = perr := by
  unfold parseMatchers parseMatchersLoop
  rw [if_neg (by simp only [SizeOfXTEntryMatch] at h32; omega),
    if_neg (by omega)]
  have hsl1 : slice b 0 SizeOfXTEntryMatch = some (b.take SizeOfXTEntryMatch) := by
    simp [slice]
    omega
  rw [hsl1]
  simp only []
  rcases hbad with hbad | hbad
  · rw [if_pos hbad]
  · by_cases hms : (decodeXTEntryMatch (b.take SizeOfXTEntryMatch)).matchSize <
        SizeOfXTEntryMatch
    · rw [if_pos hms]
    · rw [if_neg hms, if_pos hbad]

/-- **C6** — `parseMatchers` exact exhaustion: for every unmarshal dispatch,
filter and byte region, (i) a first matcher-extension header declaring a
block size smaller than the header or larger than the remaining region is
rejected; (ii) a nonempty region shorter than one header (leftover trailing
bytes) is rejected; and (iii) on success the parsed matcher blocks
partition the region exactly — each chunk is at least a header long, its
declared size equals its exact length, and the chunks concatenate to the
whole region. -/
theorem parseMatchers_exact_exhaustion :
    (∀ (M : Type) (um : XTEntryMatch → IPHeaderFilter → List Nat → Option M)
        (f : IPHeaderFilter) (b : List Nat),
      SizeOfXTEntryMatch ≤ b.length →
      ((decodeXTEntryMatch (b.take SizeOfXTEntryMatch)).matchSize < SizeOfXTEntryMatch ∨
        b.length < (decodeXTEntryMatch (b.take SizeOfXTEntryMatch)).matchSize) →
      parseMatchers um f b = perr) ∧
    (∀ (M : Type) (um : XTEntryMatch → IPHeaderFilter → List Nat → Option M)
        (f : IPHeaderFilter) (b : List Nat),
      0 < b.length → b.length < SizeOfXTEntryMatch → parseMatchers um f b = perr) ∧
    (∀ (M : Type) (um : XTEntryMatch → IPHeaderFilter → List Nat → Option M)
        (f : IPHeaderFilter) (b : List Nat) (ms : List M),
      parseMatchers um f b = pok ms →
      ∃ chunks : List (List Nat), b = chunks.flatten ∧ chunks.length = ms.length ∧
        ∀ c ∈ chunks, SizeOfXTEntryMatch ≤ c.length ∧
          (decodeXTEntryMatch (c.take SizeOfXTEntryMatch)).matchSize = c.length) :=
  ⟨fun _ um f b h1 h2 => parseMatchers_reject_first um f b h1 h2,
   fun _ um f b h1 h2 => parseMatchers_reject_short um f b h1 h2,
   fun _ um f b ms h => parseMatchersLoop_partition um f b.length b le_rfl ms h⟩

/-- Witness for C6 at concrete inputs: a header declaring size 8 is
rejected, a 1-byte region is rejected, and the empty region succeeds with an
empty exact partition. -/
theorem parseMatchers_exact_exhaustion_witness :
    parseMatchers unmarshalMatcher { protocol := 0 } (u16LE 8 ++ zeros 30) = perr ∧
    parseMatchers unmarshalMatcher { protocol := 0 } [5] = perr ∧
    (∃ chunks : List (List Nat), ([] : List Nat) = chunks.flatten ∧
      chunks.length = ([] : List Matcher).length ∧
      ∀ c ∈ chunks, SizeOfXTEntryMatch ≤ c.length ∧
        (decodeXTEntryMatch (c.take SizeOfXTEntryMatch)).matchSize = c.length) :=
  ⟨parseMatchers_exact_exhaustion.1 Matcher unmarshalMatcher { protocol := 0 }
      (u16LE 8 ++ zeros 30) (by decide) (Or.inl (by decide)),
   parseMatchers_exact_exhaustion.2.1 Matcher unmarshalMatcher { protocol := 0 }
      [5] (by decide) (by decide),
   parseMatchers_exact_exhaustion.2.2 Matcher unmarshalMatcher { protocol := 0 }
      [] [] (by decide)⟩

/-! ## Claim C4: replace atomicity -/

theorem storeGet_storeSet_ne (s : Store) (k n : List Nat) (v : Table × Meta)
    (h : n ≠ k) : storeGet (storeSet s k v) n = storeGet s n := by
  induction s with
  | nil => simp [storeSet, storeGet, Ne.symm h]
  | cons p rest IH =>
    obtain ⟨k', v'⟩ := p
    by_cases hk : k' = k
    · subst hk
      simp [storeSet, storeGet, Ne.symm h]
    · simp [storeSet, storeGet, hk]
      by_cases hn : k' = n
      · simp [hn]
      · simp [hn, IH]

/-- **C4** — Replace atomicity: whenever `SetEntries` returns an error the
store is exactly as before the call (every table unchanged); on success the
newly built table and metadata are installed under the (necessarily)
`"filter"` name in a single final step, leaving every other table
unchanged. -/
theorem setEntries_replace_atomicity (s : Store) (b : List Nat)
    (e : Except Unit Unit) (s' : Store) (h : SetEntriesStack s b = some (e, s')) :
    (e = Except.error () → s' = s) ∧
    (e = Except.ok () → ∃ t m, SetEntries b = pok (t, m) ∧
      s' = storeSet s filterName (t, m) ∧
      ∀ n, n ≠ filterName → storeGet s' n = storeGet s n) := by
  unfold SetEntriesStack at h
  cases hse : SetEntries b with
  | none => rw [hse] at h; exact absurd h (by simp)
  | some r =>
    rw [hse] at h
    cases r with
    | error e' =>
      simp only [Option.some.injEq, Prod.mk.injEq] at h
      obtain ⟨he, hs⟩ := h
      subst he hs
      exact ⟨fun _ => rfl, fun hcontra => absurd hcontra (by simp)⟩
    | ok tm =>
      simp only [Option.some.injEq, Prod.mk.injEq] at h
      obtain ⟨he, hs⟩ := h
      subst he hs
      refine ⟨fun hcontra => absurd hcontra (by simp), fun _ => ?_⟩
      exact ⟨tm.1, tm.2, by simp [hse, pok], rfl,
        fun n hn => storeGet_storeSet_ne s filterName n tm hn⟩

/-- Witness for C4: a rejected call (empty blob) leaves a store unchanged,
and an accepted call installs exactly the decoded table. -/
theorem setEntries_replace_atomicity_witness :
    ([] : Store) = [] ∧
    (∃ t m, SetEntries blob1 = pok (t, m) ∧
      storeSet [] filterName (tbl1, testMeta) = storeSet [] filterName (t, m) ∧
      ∀ n, n ≠ filterName →
        storeGet (storeSet [] filterName (tbl1, testMeta)) n = storeGet ([] : Store) n) :=
  ⟨(setEntries_replace_atomicity [] [] (Except.error ()) [] (by decide)).1 rfl,
   (setEntries_replace_atomicity [] blob1 (Except.ok ())
      (storeSet [] filterName (tbl1, testMeta)) (by decide)).2 rfl⟩

/-! ## Supporting lemmas for the decoder pipeline -/


theorem readU16_lt (b : List Nat) (i : Nat) : readU16 b i < 65536 := by
  unfold readU16 byteAt
  have h1 : b.getD i 0 % 256 < 256 := Nat.mod_lt _ (by omega)
  have h2 : b.getD (i + 1) 0 % 256 < 256 := Nat.mod_lt _ (by omega)
  omega

theorem targetBytesOf_length (t : Target) :
    (targetBytesOf t).length = if t = Target.errorTarget then 64 else 40 := by
  cases t <;> decide

theorem filterFromIPTIP_ok (ip : IPTIP) (f : IPHeaderFilter)
    (h : filterFromIPTIP ip = Except.ok f) : f = { protocol := ip.protocol } := by
  unfold filterFromIPTIP at h
  split at h
  · exact absurd h (by simp)
  · exact (Except.ok.inj h).symm

theorem parseTarget_size (b : List Nat) (t : Target) (h : parseTarget b = pok t) :
    (b.length = 40 ∧ (t = Target.unconditionalAccept ∨ t = Target.unconditionalDrop)) ∨
    (b.length = 64 ∧ t = Target.errorTarget) := by
  rcases (parseTarget_characterization b t).mp h with ⟨_, hlen, hc⟩ | ⟨_, hlen, _, ht⟩
  · left
    refine ⟨hlen, ?_⟩
    rcases hc with ⟨_, rfl⟩ | ⟨_, rfl⟩
    · exact Or.inl rfl
    · exact Or.inr rfl
  · right
    exact ⟨hlen, ht⟩

theorem parseMatchers_unmarshalNone (f : IPHeaderFilter) (b : List Nat) (ms : List Matcher)
    (h : parseMatchers unmarshalMatcher f b = pok ms) : b = [] ∧ ms = [] := by
  unfold parseMatchers parseMatchersLoop at h
  by_cases h0 : b.length = 0
  · rw [if_pos h0] at h
    rw [pok_inj] at h
    exact ⟨List.eq_nil_of_length_eq_zero h0, h.symm⟩
  rw [if_neg h0] at h
  by_cases h32 : b.length < SizeOfXTEntryMatch
  · rw [if_pos h32] at h; simp [perr, pok] at h
  rw [if_neg h32] at h
  have hsl1 : slice b 0 SizeOfXTEntryMatch = some (b.take SizeOfXTEntryMatch) := by
    simp [slice]
    omega
  rw [hsl1] at h
  simp only [] at h
  by_cases hms : (decodeXTEntryMatch (b.take SizeOfXTEntryMatch)).matchSize < SizeOfXTEntryMatch
  · rw [if_pos hms] at h; simp [perr, pok] at h
  rw [if_neg hms] at h
  by_cases hlen : b.length < (decodeXTEntryMatch (b.take SizeOfXTEntryMatch)).matchSize
  · rw [if_pos hlen] at h; simp [perr, pok] at h
  rw [if_neg hlen] at h
  have hsl2 : slice b SizeOfXTEntryMatch
      (decodeXTEntryMatch (b.take SizeOfXTEntryMatch)).matchSize =
      some ((b.take (decodeXTEntryMatch (b.take SizeOfXTEntryMatch)).matchSize).drop
        SizeOfXTEntryMatch) := by
    simp [slice]
    omega
  rw [hsl2] at h
  simp only [unmarshalMatcher] at h
  simp [perr, pok] at h



theorem parseTarget_no_none (b : List Nat) : parseTarget b ≠ none := by
  unfold parseTarget
  by_cases h32 : b.length < SizeOfXTEntryTarget
  · rw [if_pos h32]; simp [perr]
  rw [if_neg h32]
  have hs : slice b 0 SizeOfXTEntryTarget = some (b.take SizeOfXTEntryTarget) := by
    simp [slice]
    omega
  rw [hs]
  simp only []
  split
  · by_cases hlen : b.length ≠ SizeOfXTStandardTarget
    · rw [if_pos hlen]; simp [perr]
    · rw [if_neg hlen]
      have hs40 : slice b 0 SizeOfXTStandardTarget = some (b.take SizeOfXTStandardTarget) := by
        simp only [SizeOfXTEntryTarget, SizeOfXTStandardTarget] at *
        simp [slice]
        omega
      rw [hs40]
      simp only []
      split <;> simp [perr, pok]
  · split
    · by_cases hlen : b.length ≠ SizeOfXTErrorTarget
      · rw [if_pos hlen]; simp [perr]
      · rw [if_neg hlen]
        have hs64 : slice b 0 SizeOfXTErrorTarget = some (b.take SizeOfXTErrorTarget) := by
          simp only [SizeOfXTEntryTarget, SizeOfXTErrorTarget] at *
          simp [slice]
          omega
        rw [hs64]
        simp only []
        split <;> simp [perr, pok]
    · simp [perr]




theorem parseEntryTarget_shape (entry : IPTEntry) (filter : IPHeaderFilter)
    (matchers : List Matcher) (rest1 : List Nat) (res : Rule × Nat × List Nat)
    (h : parseEntryTarget entry filter matchers rest1 = pok res) :
    ∃ target,
      res = ({ filter := filter, target := target, matchers := matchers },
        entry.nextOffset, rest1.drop (sub16 entry.nextOffset entry.targetOffset)) ∧
      sub16 entry.nextOffset entry.targetOffset ≤ rest1.length ∧
      parseTarget (rest1.take (sub16 entry.nextOffset entry.targetOffset)) = pok target := by
  unfold parseEntryTarget at h
  simp only [] at h
  set ts := sub16 entry.nextOffset entry.targetOffset with htsdef
  by_cases hts : rest1.length < ts
  · rw [if_pos hts] at h; simp [perr, pok] at h
  rw [if_neg hts] at h
  have hsl5 : slice rest1 0 ts = some (rest1.take ts) := by
    simp [slice]
    omega
  rw [hsl5] at h
  simp only [] at h
  cases hpt : parseTarget (rest1.take ts) with
  | none => rw [hpt] at h; simp [pok] at h
  | some rt =>
    rw [hpt] at h
    cases rt with
    | error e => simp [perr, pok] at h
    | ok target =>
      simp only [] at h
      have hsl6 : slice rest1 ts rest1.length = some (rest1.drop ts) := by
        simp [slice, List.take_length]
        omega
      rw [hsl6] at h
      simp only [pok, Option.some.injEq, Except.ok.injEq] at h
      subst h
      exact ⟨target, rfl, by omega, rfl⟩

theorem parseEntryMatchers_shape (entry : IPTEntry) (filter : IPHeaderFilter)
    (rest0 : List Nat) (res : Rule × Nat × List Nat)
    (h : parseEntryMatchers entry filter rest0 = pok res) :
    sub16 entry.targetOffset SizeOfIPTEntry = 0 ∧
    parseEntryTarget entry filter [] rest0 = pok res := by
  unfold parseEntryMatchers at h
  simp only [] at h
  set msz := sub16 entry.targetOffset SizeOfIPTEntry with hmszdef
  by_cases hmsz : rest0.length < msz
  · rw [if_pos hmsz] at h; simp [perr, pok] at h
  rw [if_neg hmsz] at h
  have hsl3 : slice rest0 0 msz = some (rest0.take msz) := by
    simp [slice]
    omega
  rw [hsl3] at h
  simp only [] at h
  cases hpm : parseMatchers unmarshalMatcher filter (rest0.take msz) with
  | none => rw [hpm] at h; simp [pok] at h
  | some rm =>
    rw [hpm] at h
    cases rm with
    | error e => simp [perr, pok] at h
    | ok matchers =>
      simp only [] at h
      obtain ⟨hmnil, hmsnil⟩ := parseMatchers_unmarshalNone filter _ matchers hpm
      have hmsz0 : msz = 0 := by
        rcases List.take_eq_nil_iff.mp hmnil with h' | h'
        · exact h'
        · rw [h'] at hmsz
          simp at hmsz
          omega
      have hsl4 : slice rest0 msz rest0.length = some (rest0.drop msz) := by
        simp [slice, List.take_length]
        omega
      rw [hsl4] at h
      simp only [] at h
      subst hmsnil
      refine ⟨hmsz0, ?_⟩
      rw [hmsz0] at h
      simpa [List.drop_zero] using h

theorem parseEntryHeader_shape (entry : IPTEntry) (rest0 : List Nat)
    (res : Rule × Nat × List Nat) (h : parseEntryHeader entry rest0 = pok res) :
    SizeOfIPTEntry ≤ entry.targetOffset ∧
    filterFromIPTIP entry.ip = Except.ok { protocol := entry.ip.protocol } ∧
    parseEntryMatchers entry { protocol := entry.ip.protocol } rest0 = pok res := by
  unfold parseEntryHeader at h
  by_cases hTO : entry.targetOffset < SizeOfIPTEntry
  · rw [if_pos hTO] at h; simp [perr, pok] at h
  rw [if_neg hTO] at h
  cases hfil : filterFromIPTIP entry.ip with
  | error e => rw [hfil] at h; simp [perr, pok] at h
  | ok filter =>
    rw [hfil] at h
    simp only [] at h
    have := filterFromIPTIP_ok _ _ hfil
    subst this
    exact ⟨by omega, rfl, h⟩

theorem parseOneEntry_shape (optVal : List Nat) (res : Rule × Nat × List Nat)
    (h : parseOneEntry optVal = pok res) :
    SizeOfIPTEntry ≤ optVal.length ∧
    parseEntryHeader (decodeIPTEntry (optVal.take SizeOfIPTEntry))
      (optVal.drop SizeOfIPTEntry) = pok res := by
  unfold parseOneEntry at h
  by_cases hL : optVal.length < SizeOfIPTEntry
  · rw [if_pos hL] at h; simp [perr, pok] at h
  rw [if_neg hL] at h
  have hsl1 : slice optVal 0 SizeOfIPTEntry = some (optVal.take SizeOfIPTEntry) := by
    simp [slice]
    omega
  rw [hsl1] at h
  simp only [] at h
  have hsl2 : slice optVal SizeOfIPTEntry optVal.length =
      some (optVal.drop SizeOfIPTEntry) := by
    simp [slice, List.take_length]
    omega
  rw [hsl2] at h
  exact ⟨by omega, h⟩



theorem parseOneEntry_spec (optVal : List Nat) (rule : Rule) (nextOff : Nat)
    (rest : List Nat) (h : parseOneEntry optVal = pok (rule, nextOff, rest)) :
    rule.matchers = [] ∧ rule.filter.protocol < 65536 ∧ nextOff = entrySize rule ∧
    entrySize rule ≤ optVal.length ∧ rest = optVal.drop (entrySize rule) := by
  obtain ⟨h112, hh⟩ := parseOneEntry_shape _ _ h
  obtain ⟨hTO, hfil, hm⟩ := parseEntryHeader_shape _ _ _ hh
  obtain ⟨hmsz0, ht⟩ := parseEntryMatchers_shape _ _ _ _ hm
  obtain ⟨target, hres, hts, hpt⟩ := parseEntryTarget_shape _ _ _ _ _ ht
  set entry := decodeIPTEntry (optVal.take SizeOfIPTEntry) with hentry
  set ts := sub16 entry.nextOffset entry.targetOffset with htsdef
  simp only [Prod.mk.injEq] at hres
  obtain ⟨hrule, hno, hrest⟩ := hres
  have hNO : entry.nextOffset < 65536 := readU16_lt _ _
  have hTO16 : entry.targetOffset < 65536 := readU16_lt _ _
  have hTO112 : entry.targetOffset = SizeOfIPTEntry := by
    unfold sub16 at hmsz0
    simp only [SizeOfIPTEntry] at *
    omega
  have htlen : ((optVal.drop SizeOfIPTEntry).take ts).length = ts := by
    rw [List.length_take]
    exact Nat.min_eq_left hts
  have hdroplen : (optVal.drop SizeOfIPTEntry).length = optVal.length - SizeOfIPTEntry := by
    simp
  rcases parseTarget_size _ _ hpt with ⟨hlen40, htgt⟩ | ⟨hlen64, htgt⟩
  · have hts40 : ts = 40 := by rw [htlen] at hlen40; exact hlen40
    have hNO152 : entry.nextOffset = 152 := by
      rw [htsdef, hTO112] at hts40
      unfold sub16 at hts40
      simp only [SizeOfIPTEntry] at *
      omega
    have hes : entrySize rule = 152 := by
      subst hrule
      unfold entrySize
      rcases htgt with rfl | rfl <;> simp [targetBytesOf_length, SizeOfIPTEntry]
    subst hrule
    refine ⟨rfl, readU16_lt _ _, by omega, ?_, ?_⟩
    · simp only [List.length_drop] at hts
      simp only [SizeOfIPTEntry] at *
      omega
    · rw [hrest, List.drop_drop, hts40, hes]
      congr 1
  · have hts64 : ts = 64 := by rw [htlen] at hlen64; exact hlen64
    have hNO176 : entry.nextOffset = 176 := by
      rw [htsdef, hTO112] at hts64
      unfold sub16 at hts64
      simp only [SizeOfIPTEntry] at *
      omega
    have hes : entrySize rule = 176 := by
      subst hrule
      unfold entrySize
      subst htgt
      simp [targetBytesOf_length, SizeOfIPTEntry]
    subst hrule
    refine ⟨rfl, readU16_lt _ _, by omega, ?_, ?_⟩
    · simp only [List.length_drop] at hts
      simp only [SizeOfIPTEntry] at *
      omega
    · rw [hrest, List.drop_drop, hts64, hes]
      congr 1

theorem parseEntries_shape :
    ∀ (count : Nat) (optVal : List Nat) (offset : Nat) (rules : List Rule)
      (offsets rem : List Nat),
      parseEntries count optVal offset = pok (rules, offsets, rem) →
      rules.length = count ∧ offsets = offsetsFrom offset rules ∧
      ∀ r ∈ rules, r.matchers = [] ∧ r.filter.protocol < 65536 := by
  intro count
  induction count with
  | zero =>
    intro optVal offset rules offsets rem h
    unfold parseEntries at h
    simp only [pok, Option.some.injEq, Except.ok.injEq, Prod.mk.injEq] at h
    obtain ⟨h1, h2, h3⟩ := h
    subst h1
    subst h2
    exact ⟨rfl, rfl, by simp⟩
  | succ n IH =>
    intro optVal offset rules offsets rem h
    unfold parseEntries at h
    cases hone : parseOneEntry optVal with
    | none => rw [hone] at h; simp [pok] at h
    | some r1 =>
      rw [hone] at h
      cases r1 with
      | error e => simp [perr, pok] at h
      | ok v =>
        obtain ⟨rule, nextOff, rest⟩ := v
        simp only [] at h
        cases hrec : parseEntries n rest ((offset + nextOff) % 2 ^ 32) with
        | none => rw [hrec] at h; simp [pok] at h
        | some rr =>
          rw [hrec] at h
          cases rr with
          | error e => simp [perr, pok] at h
          | ok r' =>
            obtain ⟨rules', offsets', rem'⟩ := r'
            simp only [pok, Option.some.injEq, Except.ok.injEq, Prod.mk.injEq] at h
            obtain ⟨h1, h2, h3⟩ := h
            subst h1
            subst h2
            obtain ⟨ihlen, ihoff, ihall⟩ := IH _ _ _ _ _ hrec
            obtain ⟨hmnil, hproto, hno, _, _⟩ := parseOneEntry_spec _ _ _ _ hone
            refine ⟨by simpa using ihlen, ?_, ?_⟩
            · simp only [offsetsFrom]
              rw [← hno, ihoff]
            · intro r hr
              rcases List.mem_cons.mp hr with rfl | hr
              · exact ⟨hmnil, hproto⟩
              · exact ihall r hr



theorem parseEntryTarget_no_none (entry : IPTEntry) (filter : IPHeaderFilter)
    (matchers : List Matcher) (rest1 : List Nat) :
    parseEntryTarget entry filter matchers rest1 ≠ none := by
  unfold parseEntryTarget
  simp only []
  set ts := sub16 entry.nextOffset entry.targetOffset with htsdef
  by_cases hts : rest1.length < ts
  · rw [if_pos hts]; simp [perr]
  rw [if_neg hts]
  have hsl5 : slice rest1 0 ts = some (rest1.take ts) := by
    simp [slice]
    omega
  rw [hsl5]
  simp only []
  cases hpt : parseTarget (rest1.take ts) with
  | none => exact absurd hpt (parseTarget_no_none _)
  | some rt =>
    cases rt with
    | error e => simp [perr]
    | ok target =>
      simp only []
      have hsl6 : slice rest1 ts rest1.length = some (rest1.drop ts) := by
        simp [slice, List.take_length]
        omega
      rw [hsl6]
      simp [pok]

theorem parseEntryMatchers_no_none (entry : IPTEntry) (filter : IPHeaderFilter)
    (rest0 : List Nat) : parseEntryMatchers entry filter rest0 ≠ none := by
  unfold parseEntryMatchers
  simp only []
  set msz := sub16 entry.targetOffset SizeOfIPTEntry with hmszdef
  by_cases hmsz : rest0.length < msz
  · rw [if_pos hmsz]; simp [perr]
  rw [if_neg hmsz]
  have hsl3 : slice rest0 0 msz = some (rest0.take msz) := by
    simp [slice]
    omega
  rw [hsl3]
  simp only []
  cases hpm : parseMatchers unmarshalMatcher filter (rest0.take msz) with
  | none =>
    exact absurd hpm (parseMatchersLoop_no_none unmarshalMatcher filter _ _ le_rfl)
  | some rm =>
    cases rm with
    | error e => simp [perr]
    | ok matchers =>
      simp only []
      have hsl4 : slice rest0 msz rest0.length = some (rest0.drop msz) := by
        simp [slice, List.take_length]
        omega
      rw [hsl4]
      simp only []
      exact parseEntryTarget_no_none entry filter matchers (rest0.drop msz)

theorem parseEntryHeader_no_none (entry : IPTEntry) (rest0 : List Nat) :
    parseEntryHeader entry rest0 ≠ none := by
  unfold parseEntryHeader
  by_cases hTO : entry.targetOffset < SizeOfIPTEntry
  · rw [if_pos hTO]; simp [perr]
  rw [if_neg hTO]
  cases hfil : filterFromIPTIP entry.ip with
  | error e => simp [perr]
  | ok filter =>
    simp only []
    exact parseEntryMatchers_no_none entry filter rest0

theorem parseOneEntry_no_none (optVal : List Nat) : parseOneEntry optVal ≠ none := by
  unfold parseOneEntry
  by_cases hL : optVal.length < SizeOfIPTEntry
  · rw [if_pos hL]; simp [perr]
  rw [if_neg hL]
  have hsl1 : slice optVal 0 SizeOfIPTEntry = some (optVal.take SizeOfIPTEntry) := by
    simp [slice]
    omega
  rw [hsl1]
  simp only []
  have hsl2 : slice optVal SizeOfIPTEntry optVal.length =
      some (optVal.drop SizeOfIPTEntry) := by
    simp [slice, List.take_length]
    omega
  rw [hsl2]
  simp only []
  exact parseEntryHeader_no_none _ _

theorem parseEntries_no_none :
    ∀ (count : Nat) (optVal : List Nat) (offset : Nat),
      parseEntries count optVal offset ≠ none := by
  intro count
  induction count with
  | zero => intro optVal offset; unfold parseEntries; simp [pok]
  | succ n IH =>
    intro optVal offset
    unfold parseEntries
    cases hone : parseOneEntry optVal with
    | none => exact absurd hone (parseOneEntry_no_none _)
    | some r1 =>
      cases r1 with
      | error e => simp
      | ok v =>
        obtain ⟨rule, nextOff, rest⟩ := v
        simp only []
        cases hrec : parseEntries n rest ((offset + nextOff) % 2 ^ 32) with
        | none => exact absurd hrec (IH _ _)
        | some rr =>
          cases rr with
          | error e => simp
          | ok r' =>
            obtain ⟨rules', offsets', rem'⟩ := r'
            simp [pok]



theorem resolveOne_hook0 (rpl : IPTReplace) (offsets : List Nat) (t : Table) :
    resolveOne rpl offsets t 0 = pok t := by
  unfold resolveOne
  rw [if_neg (by unfold Table.ValidHooks; decide)]

theorem resolveOne_hook4 (rpl : IPTReplace) (offsets : List Nat) (t : Table) :
    resolveOne rpl offsets t 4 = pok t := by
  unfold resolveOne
  rw [if_neg (by unfold Table.ValidHooks; decide)]

theorem resolveOne_hook1 (rpl : IPTReplace) (offsets : List Nat) (t : Table) :
    resolveOne rpl offsets t 1 =
      (if resolveList offsets.enum (rpl.hookEntry.getD 1 0) t.builtinChains.input =
          HookUnset then perr
       else if resolveList offsets.enum (rpl.underflow.getD 1 0) t.underflows.input =
          HookUnset then perr
       else pok { t with
          builtinChains := { t.builtinChains with
            input := resolveList offsets.enum (rpl.hookEntry.getD 1 0) t.builtinChains.input }
          underflows := { t.underflows with
            input := resolveList offsets.enum (rpl.underflow.getD 1 0) t.underflows.input } }) := by
  unfold resolveOne
  rw [if_pos (by unfold Table.ValidHooks; decide)]
  rfl

theorem resolveOne_hook2 (rpl : IPTReplace) (offsets : List Nat) (t : Table) :
    resolveOne rpl offsets t 2 =
      (if resolveList offsets.enum (rpl.hookEntry.getD 2 0) t.builtinChains.forward =
          HookUnset then perr
       else if resolveList offsets.enum (rpl.underflow.getD 2 0) t.underflows.forward =
          HookUnset then perr
       else pok { t with
          builtinChains := { t.builtinChains with
            forward := resolveList offsets.enum (rpl.hookEntry.getD 2 0) t.builtinChains.forward }
          underflows := { t.underflows with
            forward := resolveList offsets.enum (rpl.underflow.getD 2 0) t.underflows.forward } }) := by
  unfold resolveOne
  rw [if_pos (by unfold Table.ValidHooks; decide)]
  rfl

theorem resolveOne_hook3 (rpl : IPTReplace) (offsets : List Nat) (t : Table) :
    resolveOne rpl offsets t 3 =
      (if resolveList offsets.enum (rpl.hookEntry.getD 3 0) t.builtinChains.output =
          HookUnset then perr
       else if resolveList offsets.enum (rpl.underflow.getD 3 0) t.underflows.output =
          HookUnset then perr
       else pok { t with
          builtinChains := { t.builtinChains with
            output := resolveList offsets.enum (rpl.hookEntry.getD 3 0) t.builtinChains.output }
          underflows := { t.underflows with
            output := resolveList offsets.enum (rpl.underflow.getD 3 0) t.underflows.output } }) := by
  unfold resolveOne
  rw [if_pos (by unfold Table.ValidHooks; decide)]
  rfl

theorem resolveList_enumFrom (l : List Nat) (d : Nat) :
    ∀ (s : Nat) (a : Int),
      resolveList (l.enumFrom s) d a =
        match lastMatchIdx l d with
        | none => a
        | some j => ((s + j : Nat) : Int) := by
  induction l with
  | nil => intro s a; simp [List.enumFrom, resolveList, lastMatchIdx]
  | cons x xs IH =>
    intro s a
    simp only [List.enumFrom, resolveList]
    rw [IH]
    cases hl : lastMatchIdx xs d with
    | some j =>
      simp only [lastMatchIdx, hl]
      congr 1
      omega
    | none =>
      simp only [lastMatchIdx, hl]
      by_cases hx : x = d
      · simp [hx]
      · simp [hx]

theorem resolveList_enum (l : List Nat) (d : Nat) (a : Int) :
    resolveList l.enum d a =
      match lastMatchIdx l d with
      | none => a
      | some j => ((j : Nat) : Int) := by
  have := resolveList_enumFrom l d 0 a
  simpa [List.enum] using this

theorem lastMatchIdx_spec (l : List Nat) (d : Nat) :
    (lastMatchIdx l d = none → ∀ j, j < l.length → l.getD j 0 ≠ d) ∧
    (∀ j, lastMatchIdx l d = some j → j < l.length ∧ l.getD j 0 = d ∧
      ∀ k, j < k → k < l.length → l.getD k 0 ≠ d) := by
  induction l with
  | nil => simp [lastMatchIdx]
  | cons x xs IH =>
    constructor
    · intro hn j hj
      unfold lastMatchIdx at hn
      cases hl : lastMatchIdx xs d with
      | some j' => rw [hl] at hn; simp at hn
      | none =>
        rw [hl] at hn
        by_cases hx : x = d
        · rw [if_pos hx] at hn; simp at hn
        · cases j with
          | zero => simpa using hx
          | succ j' =>
            simp only [List.getD_cons_succ]
            exact IH.1 hl j' (by simpa using hj)
    · intro j hj
      unfold lastMatchIdx at hj
      cases hl : lastMatchIdx xs d with
      | some j' =>
        rw [hl] at hj
        simp only [Option.some.injEq] at hj
        subst hj
        obtain ⟨h1, h2, h3⟩ := IH.2 j' hl
        refine ⟨by simpa using h1, by simpa using h2, ?_⟩
        intro k hk1 hk2
        cases k with
        | zero => omega
        | succ k' =>
          simp only [List.getD_cons_succ]
          exact h3 k' (by omega) (by simpa using hk2)
      | none =>
        rw [hl] at hj
        by_cases hx : x = d
        · rw [if_pos hx] at hj
          simp only [Option.some.injEq] at hj
          subst hj
          refine ⟨by simp, by simpa using hx, ?_⟩
          intro k hk1 hk2
          cases k with
          | zero => omega
          | succ k' =>
            simp only [List.getD_cons_succ]
            exact IH.1 hl k' (by simpa using hk2)
        · rw [if_neg hx] at hj
          simp at hj

theorem lastMatchIdx_self (l : List Nat) (d : Nat) (j : Nat)
    (h : lastMatchIdx l d = some j) : lastMatchIdx l (l.getD j 0) = some j := by
  rw [((lastMatchIdx_spec l d).2 j h).2.1]
  exact h



theorem decResBind_pok {α β : Type} (a : α) (f : α → DecRes β) :
    decResBind (pok a) f = f a := rfl

theorem decResBind_perr {α β : Type} (f : α → DecRes β) :
    decResBind perr f = perr := rfl

theorem resolveStage_unfold (rpl : IPTReplace) (offsets : List Nat) (t : Table) :
    resolveStage rpl offsets t =
      decResBind (resolveOne rpl offsets t 1) fun t1 =>
      decResBind (resolveOne rpl offsets t1 2) fun t2 =>
      resolveOne rpl offsets t2 3 := by
  have h4 : ∀ x : DecRes Table,
      decResBind x (fun t3 => resolveOne rpl offsets t3 4) = x := by
    intro x
    cases x with
    | none => rfl
    | some r =>
      cases r with
      | error e => rfl
      | ok t3 => exact resolveOne_hook4 rpl offsets t3
  unfold resolveStage
  rw [resolveOne_hook0, decResBind_pok]
  simp only [h4]

theorem resolveStage_spec (rpl : IPTReplace) (offsets : List Nat) (t t' : Table)
    (h : resolveStage rpl offsets t = pok t') :
    t' = { rules := t.rules,
           builtinChains :=
             { input := resolveList offsets.enum (rpl.hookEntry.getD 1 0) t.builtinChains.input,
               forward := resolveList offsets.enum (rpl.hookEntry.getD 2 0) t.builtinChains.forward,
               output := resolveList offsets.enum (rpl.hookEntry.getD 3 0) t.builtinChains.output },
           underflows :=
             { input := resolveList offsets.enum (rpl.underflow.getD 1 0) t.underflows.input,
               forward := resolveList offsets.enum (rpl.underflow.getD 2 0) t.underflows.forward,
               output := resolveList offsets.enum (rpl.underflow.getD 3 0) t.underflows.output } } ∧
    t'.builtinChains.input ≠ HookUnset ∧ t'.builtinChains.forward ≠ HookUnset ∧
    t'.builtinChains.output ≠ HookUnset ∧ t'.underflows.input ≠ HookUnset ∧
    t'.underflows.forward ≠ HookUnset ∧ t'.underflows.output ≠ HookUnset := by
  rw [resolveStage_unfold, resolveOne_hook1] at h
  by_cases hci1 : resolveList offsets.enum (rpl.hookEntry.getD 1 0) t.builtinChains.input =
      HookUnset
  · rw [if_pos hci1] at h; simp [decResBind, perr, pok] at h
  rw [if_neg hci1] at h
  by_cases hui1 : resolveList offsets.enum (rpl.underflow.getD 1 0) t.underflows.input =
      HookUnset
  · rw [if_pos hui1] at h; simp [decResBind, perr, pok] at h
  rw [if_neg hui1, decResBind_pok] at h
  rw [resolveOne_hook2] at h
  simp only [] at h
  by_cases hci2 : resolveList offsets.enum (rpl.hookEntry.getD 2 0) t.builtinChains.forward =
      HookUnset
  · rw [if_pos hci2] at h; simp [decResBind, perr, pok] at h
  rw [if_neg hci2] at h
  by_cases hui2 : resolveList offsets.enum (rpl.underflow.getD 2 0) t.underflows.forward =
      HookUnset
  · rw [if_pos hui2] at h; simp [decResBind, perr, pok] at h
  rw [if_neg hui2, decResBind_pok] at h
  rw [resolveOne_hook3] at h
  simp only [] at h
  by_cases hci3 : resolveList offsets.enum (rpl.hookEntry.getD 3 0) t.builtinChains.output =
      HookUnset
  · rw [if_pos hci3] at h; simp [perr, pok] at h
  rw [if_neg hci3] at h
  by_cases hui3 : resolveList offsets.enum (rpl.underflow.getD 3 0) t.underflows.output =
      HookUnset
  · rw [if_pos hui3] at h; simp [perr, pok] at h
  rw [if_neg hui3] at h
  rw [pok_inj] at h
  subst h
  exact ⟨rfl, hci1, hci2, hci3, hui1, hui2, hui3⟩

theorem resolveStage_no_none (rpl : IPTReplace) (offsets : List Nat) (t : Table) :
    resolveStage rpl offsets t ≠ none := by
  rw [resolveStage_unfold, resolveOne_hook1]
  by_cases hci1 : resolveList offsets.enum (rpl.hookEntry.getD 1 0) t.builtinChains.input =
      HookUnset
  · rw [if_pos hci1]; simp [decResBind, perr]
  rw [if_neg hci1]
  by_cases hui1 : resolveList offsets.enum (rpl.underflow.getD 1 0) t.underflows.input =
      HookUnset
  · rw [if_pos hui1]; simp [decResBind, perr]
  rw [if_neg hui1, decResBind_pok]
  rw [resolveOne_hook2]
  simp only []
  by_cases hci2 : resolveList offsets.enum (rpl.hookEntry.getD 2 0) t.builtinChains.forward =
      HookUnset
  · rw [if_pos hci2]; simp [decResBind, perr]
  rw [if_neg hci2]
  by_cases hui2 : resolveList offsets.enum (rpl.underflow.getD 2 0) t.underflows.forward =
      HookUnset
  · rw [if_pos hui2]; simp [decResBind, perr]
  rw [if_neg hui2, decResBind_pok]
  rw [resolveOne_hook3]
  simp only []
  by_cases hci3 : resolveList offsets.enum (rpl.hookEntry.getD 3 0) t.builtinChains.output =
      HookUnset
  · rw [if_pos hci3]; simp [perr]
  rw [if_neg hci3]
  by_cases hui3 : resolveList offsets.enum (rpl.underflow.getD 3 0) t.underflows.output =
      HookUnset
  · rw [if_pos hui3]; simp [perr]
  rw [if_neg hui3]
  simp [pok]

theorem policyStage_spec (t t' : Table) (h : policyStage t = pok t') :
    t' = t ∧
    (∃ r, listGetI t.rules t.builtinChains.forward = some r ∧
      r.target = Target.unconditionalAccept) ∧
    (∃ r, listGetI t.rules t.builtinChains.output = some r ∧
      r.target = Target.unconditionalAccept) := by
  unfold policyStage checkChainAccept at h
  cases hgf : listGetI t.rules (t.builtinChains.get Hook.forward) with
  | none => rw [hgf] at h; simp [decResBind, pok] at h
  | some rf =>
    rw [hgf] at h
    simp only [] at h
    by_cases hrf : rf.target = Target.unconditionalAccept
    · rw [if_pos hrf, decResBind_pok] at h
      cases hgo : listGetI t.rules (t.builtinChains.get Hook.output) with
      | none => rw [hgo] at h; simp [decResBind, pok] at h
      | some ro =>
        rw [hgo] at h
        simp only [] at h
        by_cases hro : ro.target = Target.unconditionalAccept
        · rw [if_pos hro, decResBind_pok] at h
          rw [pok_inj] at h
          subst h
          exact ⟨rfl, ⟨rf, hgf, hrf⟩, ⟨ro, hgo, hro⟩⟩
        · rw [if_neg hro] at h; simp [decResBind, perr, pok] at h
    · rw [if_neg hrf] at h; simp [decResBind, perr, pok] at h

theorem policyStage_no_none (t : Table)
    (hf : 0 ≤ t.builtinChains.forward ∧ t.builtinChains.forward.toNat < t.rules.length)
    (ho : 0 ≤ t.builtinChains.output ∧ t.builtinChains.output.toNat < t.rules.length) :
    policyStage t ≠ none := by
  unfold policyStage checkChainAccept
  have hredf : t.builtinChains.get Hook.forward = t.builtinChains.forward := rfl
  have hredo : t.builtinChains.get Hook.output = t.builtinChains.output := rfl
  have hgf : ∃ r, listGetI t.rules (t.builtinChains.get Hook.forward) = some r := by
    rw [hredf]
    unfold listGetI
    rw [if_neg (by omega)]
    exact ⟨_, List.get?_eq_get (by omega)⟩
  have hgo : ∃ r, listGetI t.rules (t.builtinChains.get Hook.output) = some r := by
    rw [hredo]
    unfold listGetI
    rw [if_neg (by omega)]
    exact ⟨_, List.get?_eq_get (by omega)⟩
  obtain ⟨rf, hgf⟩ := hgf
  obtain ⟨ro, hgo⟩ := hgo
  rw [hgf, hgo]
  simp only []
  by_cases hrf : rf.target = Target.unconditionalAccept
  · rw [if_pos hrf, decResBind_pok]
    by_cases hro : ro.target = Target.unconditionalAccept
    · rw [if_pos hro, decResBind_pok]
      simp [pok]
    · rw [if_neg hro]
      simp [decResBind, perr]
  · rw [if_neg hrf]
    simp [decResBind, perr]



theorem offsetsFrom_length (s : Nat) (rules : List Rule) :
    (offsetsFrom s rules).length = rules.length := by
  induction rules generalizing s with
  | nil => rfl
  | cons r rest IH => simp [offsetsFrom, IH]

theorem resolveList_init_ne (offsets : List Nat) (d : Nat)
    (h : resolveList offsets.enum d HookUnset ≠ HookUnset) :
    ∃ j, lastMatchIdx offsets d = some j ∧
      resolveList offsets.enum d HookUnset = ((j : Nat) : Int) ∧
      j < offsets.length ∧ offsets.getD j 0 = d := by
  rw [resolveList_enum] at h
  cases hl : lastMatchIdx offsets d with
  | none => rw [hl] at h; exact absurd rfl h
  | some j =>
    refine ⟨j, rfl, ?_, ((lastMatchIdx_spec offsets d).2 j hl).1,
      ((lastMatchIdx_spec offsets d).2 j hl).2.1⟩
    rw [resolveList_enum, hl]

theorem setEntriesFromReplace_success (rpl : IPTReplace) (rest : List Nat)
    (t : Table) (m : Meta) (h : setEntriesFromReplace rpl rest = pok (t, m)) :
    strOf rpl.name = filterName ∧ m = metaOfReplace rpl ∧
    ∃ rules offsets rem t',
      parseEntries rpl.numEntries rest 0 = pok (rules, offsets, rem) ∧
      resolveStage rpl offsets { EmptyFilterTable with rules := rules } = pok t' ∧
      policyStage t' = pok t := by
  unfold setEntriesFromReplace at h
  by_cases hname : strOf rpl.name = filterName
  · rw [if_pos hname] at h
    cases hpe : parseEntries rpl.numEntries rest 0 with
    | none => rw [hpe] at h; simp [decResBind, pok] at h
    | some rr =>
      rw [hpe] at h
      cases rr with
      | error e => simp [decResBind, perr, pok] at h
      | ok r =>
        obtain ⟨rules, offsets, rem⟩ := r
        simp only [decResBind] at h
        cases hrs : resolveStage rpl offsets { EmptyFilterTable with rules := rules } with
        | none => rw [hrs] at h; simp [pok] at h
        | some rs =>
          rw [hrs] at h
          cases rs with
          | error e => simp [perr, pok] at h
          | ok t' =>
            simp only [] at h
            cases hps : policyStage t' with
            | none => rw [hps] at h; simp [pok] at h
            | some ps =>
              rw [hps] at h
              cases ps with
              | error e => simp [perr, pok] at h
              | ok t'' =>
                simp only [pok, Option.some.injEq, Except.ok.injEq, Prod.mk.injEq] at h
                obtain ⟨ht, hm⟩ := h
                subst ht
                subst hm
                exact ⟨hname, rfl, rules, offsets, rem, t', rfl, hrs, hps⟩
  · rw [if_neg hname] at h
    simp [perr, pok] at h

theorem setEntriesFromReplace_build (rpl : IPTReplace) (rest : List Nat)
    (rules : List Rule) (offsets rem : List Nat) (t' t'' : Table)
    (hname : strOf rpl.name = filterName)
    (hpe : parseEntries rpl.numEntries rest 0 = pok (rules, offsets, rem))
    (hrs : resolveStage rpl offsets { EmptyFilterTable with rules := rules } = pok t')
    (hps : policyStage t' = pok t'') :
    setEntriesFromReplace rpl rest = pok (t'', metaOfReplace rpl) := by
  unfold setEntriesFromReplace
  rw [if_pos hname, hpe]
  simp only [pok, decResBind]
  rw [hrs]
  simp only [pok, decResBind]
  rw [hps]
  simp only [pok, decResBind]

theorem setEntriesFromReplace_no_none (rpl : IPTReplace) (rest : List Nat) :
    setEntriesFromReplace rpl rest ≠ none := by
  unfold setEntriesFromReplace
  by_cases hname : strOf rpl.name = filterName
  · rw [if_pos hname]
    cases hpe : parseEntries rpl.numEntries rest 0 with
    | none => exact absurd hpe (parseEntries_no_none _ _ _)
    | some rr =>
      cases rr with
      | error e => simp [decResBind]
      | ok r =>
        obtain ⟨rules, offsets, rem⟩ := r
        simp only [decResBind]
        cases hrs : resolveStage rpl offsets { EmptyFilterTable with rules := rules } with
        | none => exact absurd hrs (resolveStage_no_none _ _ _)
        | some rs =>
          cases rs with
          | error e => simp
          | ok t' =>
            simp only []
            obtain ⟨hshape_len, hshape_off, _⟩ := parseEntries_shape _ _ _ _ _ _ hpe
            obtain ⟨ht', hci1, hci2, hci3, hui1, hui2, hui3⟩ :=
              resolveStage_spec _ _ _ _ hrs
            have hlen_off : offsets.length = rules.length := by
              rw [hshape_off, offsetsFrom_length]
            have hrange_f : 0 ≤ t'.builtinChains.forward ∧
                t'.builtinChains.forward.toNat < t'.rules.length := by
              rw [ht'] at hci2 ⊢
              simp only [EmptyFilterTable] at hci2 ⊢
              obtain ⟨j, _, hval, hjlt, _⟩ := resolveList_init_ne offsets _ hci2
              rw [hval]
              simp only [Int.toNat_ofNat]
              constructor
              · exact Int.ofNat_nonneg j
              · omega
            have hrange_o : 0 ≤ t'.builtinChains.output ∧
                t'.builtinChains.output.toNat < t'.rules.length := by
              rw [ht'] at hci3 ⊢
              simp only [EmptyFilterTable] at hci3 ⊢
              obtain ⟨j, _, hval, hjlt, _⟩ := resolveList_init_ne offsets _ hci3
              rw [hval]
              simp only [Int.toNat_ofNat]
              constructor
              · exact Int.ofNat_nonneg j
              · omega
            cases hps : policyStage t' with
            | none => exact absurd hps (policyStage_no_none t' hrange_f hrange_o)
            | some ps =>
              cases ps with
              | error e => simp
              | ok t'' => simp [pok]
  · rw [if_neg hname]
    simp [perr]

theorem SetEntries_success (b : List Nat) (t : Table) (m : Meta)
    (h : SetEntries b = pok (t, m)) :
    SizeOfIPTReplace ≤ b.length ∧
    setEntriesFromReplace (decodeIPTReplace (b.take SizeOfIPTReplace))
      (b.drop SizeOfIPTReplace) = pok (t, m) := by
  unfold SetEntries at h
  by_cases hL : b.length < SizeOfIPTReplace
  · rw [if_pos hL] at h; simp [perr, pok] at h
  rw [if_neg hL] at h
  have hsl1 : slice b 0 SizeOfIPTReplace = some (b.take SizeOfIPTReplace) := by
    simp [slice]
    omega
  rw [hsl1] at h
  simp only [] at h
  have hsl2 : slice b SizeOfIPTReplace b.length = some (b.drop SizeOfIPTReplace) := by
    simp [slice, List.take_length]
    omega
  rw [hsl2] at h
  exact ⟨by omega, h⟩

theorem SetEntries_no_none (b : List Nat) : SetEntries b ≠ none := by
  unfold SetEntries
  by_cases hL : b.length < SizeOfIPTReplace
  · rw [if_pos hL]; simp [perr]
  rw [if_neg hL]
  have hsl1 : slice b 0 SizeOfIPTReplace = some (b.take SizeOfIPTReplace) := by
    simp [slice]
    omega
  rw [hsl1]
  simp only []
  have hsl2 : slice b SizeOfIPTReplace b.length = some (b.drop SizeOfIPTReplace) := by
    simp [slice, List.take_length]
    omega
  rw [hsl2]
  simp only []
  exact setEntriesFromReplace_no_none _ _




theorem getD_mem_of_lt (l : List Nat) (j : Nat) (h : j < l.length) : l.getD j 0 ∈ l := by
  rw [List.getD_eq_getElem l 0 h]
  exact List.getElem_mem h

theorem SetEntries_pok_spec (b : List Nat) (t : Table) (m : Meta)
    (h : SetEntries b = pok (t, m)) :
    SizeOfIPTReplace ≤ b.length ∧
    strOf (decodeIPTReplace (b.take SizeOfIPTReplace)).name = filterName ∧
    m = metaOfReplace (decodeIPTReplace (b.take SizeOfIPTReplace)) ∧
    ∃ rules offsets rem,
      parseEntries (decodeIPTReplace (b.take SizeOfIPTReplace)).numEntries
        (b.drop SizeOfIPTReplace) 0 = pok (rules, offsets, rem) ∧
      rules.length = (decodeIPTReplace (b.take SizeOfIPTReplace)).numEntries ∧
      offsets = offsetsFrom 0 rules ∧
      (∀ r ∈ rules, r.matchers = [] ∧ r.filter.protocol < 65536) ∧
      resolveStage (decodeIPTReplace (b.take SizeOfIPTReplace)) offsets
          { EmptyFilterTable with rules := rules } = pok t ∧
      policyStage t = pok t ∧
      t.rules = rules := by
  obtain ⟨hlen, hrest⟩ := SetEntries_success _ _ _ h
  obtain ⟨hname, hm, rules, offsets, rem, t', hpe, hrs, hps⟩ :=
    setEntriesFromReplace_success _ _ _ _ hrest
  obtain ⟨hshape_len, hshape_off, hshape_all⟩ := parseEntries_shape _ _ _ _ _ _ hpe
  obtain ⟨htt', _, _⟩ := policyStage_spec _ _ hps
  subst htt'
  obtain ⟨ht, _, _, _, _, _, _⟩ := resolveStage_spec _ _ _ _ hrs
  have htr : t.rules = rules := by
    rw [ht]
  exact ⟨hlen, hname, hm, rules, offsets, rem, hpe, hshape_len, hshape_off,
    hshape_all, hrs, hps, htr⟩

theorem SetEntries_chains_spec (b : List Nat) (t : Table) (m : Meta)
    (h : SetEntries b = pok (t, m)) :
    (t.builtinChains.input ≠ HookUnset ∧ 0 ≤ t.builtinChains.input ∧
      t.builtinChains.input.toNat < t.rules.length) ∧
    (t.builtinChains.forward ≠ HookUnset ∧ 0 ≤ t.builtinChains.forward ∧
      t.builtinChains.forward.toNat < t.rules.length) ∧
    (t.builtinChains.output ≠ HookUnset ∧ 0 ≤ t.builtinChains.output ∧
      t.builtinChains.output.toNat < t.rules.length) ∧
    (t.underflows.input ≠ HookUnset ∧ 0 ≤ t.underflows.input ∧
      t.underflows.input.toNat < t.rules.length) ∧
    (t.underflows.forward ≠ HookUnset ∧ 0 ≤ t.underflows.forward ∧
      t.underflows.forward.toNat < t.rules.length) ∧
    (t.underflows.output ≠ HookUnset ∧ 0 ≤ t.underflows.output ∧
      t.underflows.output.toNat < t.rules.length) := by
  obtain ⟨hlen, hname, hm, rules, offsets, rem, hpe, hcount, hoff, hall, hrs, hps, htr⟩ :=
    SetEntries_pok_spec _ _ _ h
  obtain ⟨ht, hci1, hci2, hci3, hui1, hui2, hui3⟩ := resolveStage_spec _ _ _ _ hrs
  have hlenoff : offsets.length = rules.length := by rw [hoff, offsetsFrom_length]
  have main : ∀ d : Nat, resolveList offsets.enum d HookUnset ≠ HookUnset →
      0 ≤ resolveList offsets.enum d HookUnset ∧
      (resolveList offsets.enum d HookUnset).toNat < rules.length := by
    intro d hne
    obtain ⟨j, _, hval, hjlt, _⟩ := resolveList_init_ne offsets d hne
    rw [hval]
    refine ⟨Int.ofNat_nonneg j, ?_⟩
    simp only [Int.toNat_ofNat]
    omega
  rw [ht] at hci1 hci2 hci3 hui1 hui2 hui3 ⊢
  simp only [EmptyFilterTable] at hci1 hci2 hci3 hui1 hui2 hui3 ⊢
  exact ⟨⟨hci1, main _ hci1⟩, ⟨hci2, main _ hci2⟩, ⟨hci3, main _ hci3⟩,
    ⟨hui1, main _ hui1⟩, ⟨hui2, main _ hui2⟩, ⟨hui3, main _ hui3⟩⟩



/-- **C3** — Decode safety on adversarial input: for every input byte slice,
`SetEntries` either succeeds or returns the typed invalid-argument error —
never the panic/out-of-bounds outcome; likewise no `parseMatchers` (for any
unmarshal dispatch), `parseTarget` or `filterFromIPTIP` call panics or reads
out of bounds (every bounds-checked access in the model is proved
reachable only within bounds). -/
theorem setEntries_decode_safety :
    (∀ b : List Nat, SetEntries b = perr ∨ ∃ tm, SetEntries b = pok tm) ∧
    (∀ (M : Type) (um : XTEntryMatch → IPHeaderFilter → List Nat → Option M)
        (f : IPHeaderFilter) (b : List Nat), parseMatchers um f b ≠ none) ∧
    (∀ b : List Nat, parseTarget b ≠ none) ∧
    (∀ ip : IPTIP, filterFromIPTIP ip = Except.error () ∨
      ∃ f, filterFromIPTIP ip = Except.ok f) := by
  refine ⟨?_, ?_, parseTarget_no_none, ?_⟩
  · intro b
    cases hse : SetEntries b with
    | none => exact absurd hse (SetEntries_no_none b)
    | some r =>
      cases r with
      | error e => left; cases e; rfl
      | ok tm => right; exact ⟨tm, rfl⟩
  · intro M um f b
    exact parseMatchersLoop_no_none um f _ _ le_rfl
  · intro ip
    unfold filterFromIPTIP
    split
    · exact Or.inl rfl
    · exact Or.inr ⟨_, rfl⟩

/-- **C7** — Hook completeness: (i) if the entries parse and, for some hook
whose bit is set in the table's valid-hooks mask, the declared hook-entry
offset (or the declared underflow offset) matches none of the recorded
entry offsets, `SetEntries` rejects the blob with the invalid-argument
error; (ii) a table is installed only with every supported hook's entry and
underflow rule index resolved (not `HookUnset`). -/
theorem setEntries_hook_completeness :
    (∀ (rpl : IPTReplace) (rest : List Nat) (rules : List Rule)
        (offsets rem : List Nat) (hook : Nat),
      parseEntries rpl.numEntries rest 0 = pok (rules, offsets, rem) →
      hook < NF_INET_NUMHOOKS →
      Table.ValidHooks { EmptyFilterTable with rules := rules } &&& (1 <<< hook) ≠ 0 →
      (rpl.hookEntry.getD hook 0 ∉ offsets ∨ rpl.underflow.getD hook 0 ∉ offsets) →
      setEntriesFromReplace rpl rest = perr) ∧
    (∀ (b : List Nat) (t : Table) (m : Meta), SetEntries b = pok (t, m) →
      t.builtinChains.input ≠ HookUnset ∧ t.builtinChains.forward ≠ HookUnset ∧
      t.builtinChains.output ≠ HookUnset ∧ t.underflows.input ≠ HookUnset ∧
      t.underflows.forward ≠ HookUnset ∧ t.underflows.output ≠ HookUnset) := by
  constructor
  · intro rpl rest rules offsets rem hook hpe hhook hbit hnotin
    cases hres : setEntriesFromReplace rpl rest with
    | none => exact absurd hres (setEntriesFromReplace_no_none _ _)
    | some r =>
      cases r with
      | error e => cases e; rfl
      | ok tm =>
        exfalso
        obtain ⟨t, m⟩ := tm
        obtain ⟨hname, hm, rules', offsets', rem', t', hpe', hrs, hps⟩ :=
          setEntriesFromReplace_success _ _ _ _ hres
        rw [hpe] at hpe'
        rw [pok_inj] at hpe'
        simp only [Prod.mk.injEq] at hpe'
        obtain ⟨h1, h2, h3⟩ := hpe'
        subst h1
        subst h2
        obtain ⟨ht', hci1, hci2, hci3, hui1, hui2, hui3⟩ := resolveStage_spec _ _ _ _ hrs
        rw [ht'] at hci1 hci2 hci3 hui1 hui2 hui3
        simp only [EmptyFilterTable] at hci1 hci2 hci3 hui1 hui2 hui3
        simp only [NF_INET_NUMHOOKS] at hhook
        have main : ∀ d : Nat, resolveList offsets.enum d HookUnset ≠ HookUnset →
            d ∈ offsets := by
          intro d hne
          obtain ⟨j, _, _, hjlt, hgd⟩ := resolveList_init_ne offsets d hne
          rw [← hgd]
          exact getD_mem_of_lt offsets j hjlt
        interval_cases hook
        · exact hbit (by unfold Table.ValidHooks; decide)
        · rcases hnotin with hnot | hnot
          · exact hnot (main _ hci1)
          · exact hnot (main _ hui1)
        · rcases hnotin with hnot | hnot
          · exact hnot (main _ hci2)
          · exact hnot (main _ hui2)
        · rcases hnotin with hnot | hnot
          · exact hnot (main _ hci3)
          · exact hnot (main _ hui3)
        · exact hbit (by unfold Table.ValidHooks; decide)
  · intro b t m h
    obtain ⟨g1, g2, g3, g4, g5, g6⟩ := SetEntries_chains_spec _ _ _ h
    exact ⟨g1.1, g2.1, g3.1, g4.1, g5.1, g6.1⟩

/-- Witness for C7: a blob whose declared input-hook entry offset (4)
matches no rule offset is rejected, and the accepted `blob1` resolves all
six hook indices. -/
theorem setEntries_hook_completeness_witness :
    setEntriesFromReplace (decodeIPTReplace (blobBadHook.take SizeOfIPTReplace))
      (blobBadHook.drop SizeOfIPTReplace) = perr ∧
    (tbl1.builtinChains.input ≠ HookUnset ∧ tbl1.builtinChains.forward ≠ HookUnset ∧
      tbl1.builtinChains.output ≠ HookUnset ∧ tbl1.underflows.input ≠ HookUnset ∧
      tbl1.underflows.forward ≠ HookUnset ∧ tbl1.underflows.output ≠ HookUnset) :=
  ⟨setEntries_hook_completeness.1 (decodeIPTReplace (blobBadHook.take SizeOfIPTReplace))
      (blobBadHook.drop SizeOfIPTReplace) [rule1] [0] [] 1
      (by decide) (by decide) (by decide) (Or.inl (by decide)),
   setEntries_hook_completeness.2 blob1 tbl1 testMeta (by decide)⟩

/-- **C9** — Non-input chain policy: (i) after hook resolution, if the
forward or output chain's entry rule has a target other than the
unconditional accept, `SetEntries` rejects the blob with the
invalid-argument error; (ii) an installed table's forward and output entry
rules are always unconditional accepts. -/
theorem setEntries_noninput_policy :
    (∀ (rpl : IPTReplace) (rest : List Nat) (rules : List Rule)
        (offsets rem : List Nat) (t' : Table),
      parseEntries rpl.numEntries rest 0 = pok (rules, offsets, rem) →
      resolveStage rpl offsets { EmptyFilterTable with rules := rules } = pok t' →
      ((∃ r, listGetI t'.rules t'.builtinChains.forward = some r ∧
          r.target ≠ Target.unconditionalAccept) ∨
        (∃ r, listGetI t'.rules t'.builtinChains.output = some r ∧
          r.target ≠ Target.unconditionalAccept)) →
      setEntriesFromReplace rpl rest = perr) ∧
    (∀ (b : List Nat) (t : Table) (m : Meta), SetEntries b = pok (t, m) →
      (∃ r, listGetI t.rules t.builtinChains.forward = some r ∧
        r.target = Target.unconditionalAccept) ∧
      (∃ r, listGetI t.rules t.builtinChains.output = some r ∧
        r.target = Target.unconditionalAccept)) := by
  constructor
  · intro rpl rest rules offsets rem t' hpe hrs hbad
    cases hres : setEntriesFromReplace rpl rest with
    | none => exact absurd hres (setEntriesFromReplace_no_none _ _)
    | some r =>
      cases r with
      | error e => cases e; rfl
      | ok tm =>
        exfalso
        obtain ⟨t, m⟩ := tm
        obtain ⟨hname, hm, rules', offsets', rem', t'', hpe', hrs', hps⟩ :=
          setEntriesFromReplace_success _ _ _ _ hres
        rw [hpe] at hpe'
        rw [pok_inj] at hpe'
        simp only [Prod.mk.injEq] at hpe'
        obtain ⟨h1, h2, h3⟩ := hpe'
        subst h1
        subst h2
        rw [hrs] at hrs'
        rw [pok_inj] at hrs'
        subst hrs'
        obtain ⟨_, ⟨rf, hgf, hrf⟩, ⟨ro, hgo, hro⟩⟩ := policyStage_spec _ _ hps
        rcases hbad with ⟨r, hg, hne⟩ | ⟨r, hg, hne⟩
        · rw [hgf] at hg
          cases Option.some.inj hg
          exact hne hrf
        · rw [hgo] at hg
          cases Option.some.inj hg
          exact hne hro
  · intro b t m h
    obtain ⟨_, _, _, rules, offsets, rem, hpe, _, _, _, hrs, hps, htr⟩ :=
      SetEntries_pok_spec _ _ _ h
    obtain ⟨_, hf, ho⟩ := policyStage_spec _ _ hps
    exact ⟨hf, ho⟩

/-- Witness for C9: the drop-rule blob is rejected at the policy step, and
the accepted `blob1`'s non-input chains point at unconditional accepts. -/
theorem setEntries_noninput_policy_witness :
    setEntriesFromReplace (decodeIPTReplace (blobDrop.take SizeOfIPTReplace))
      (blobDrop.drop SizeOfIPTReplace) = perr ∧
    ((∃ r, listGetI tbl1.rules tbl1.builtinChains.forward = some r ∧
      r.target = Target.unconditionalAccept) ∧
     (∃ r, listGetI tbl1.rules tbl1.builtinChains.output = some r ∧
      r.target = Target.unconditionalAccept)) :=
  ⟨setEntries_noninput_policy.1 (decodeIPTReplace (blobDrop.take SizeOfIPTReplace))
      (blobDrop.drop SizeOfIPTReplace) [ruleDrop] [0] [] tblDrop
      (by decide) (by decide) (Or.inl ⟨ruleDrop, by decide, by decide⟩),
   setEntries_noninput_policy.2 blob1 tbl1 testMeta (by decide)⟩



theorem list_matcher_nil (l : List Matcher) : l = [] :=
  match l with
  | [] => rfl
  | m :: _ => nomatch m

theorem encodeRuleEntry_eq (r : Rule) : encodeRuleEntry r = some (encodeEntryOf r) := by
  obtain ⟨f, tgt, ms⟩ := r
  have hms : ms = [] := list_matcher_nil ms
  subst hms
  cases tgt <;> rfl

theorem convertLoop_spec (chains under : HookIdx) :
    ∀ (rules : List Rule) (k size : Nat) (meta : Meta), meta.numEntries < 2 ^ 32 →
      ∃ m', convertLoop chains under rules k size meta =
          some (rules.map encodeEntryOf, sizeAfter size rules, m') ∧
        m'.numEntries = (meta.numEntries + rules.length) % 2 ^ 32 := by
  intro rules
  induction rules with
  | nil =>
    intro k size meta hlt
    refine ⟨meta, rfl, ?_⟩
    rw [List.length_nil, Nat.add_zero, Nat.mod_eq_of_lt hlt]
  | cons r rest IH =>
    intro k size meta hlt
    unfold convertLoop
    rw [encodeRuleEntry_eq]
    simp only []
    obtain ⟨m', hloop, hnum⟩ := IH (k + 1) ((size + (encodeEntryOf r).nextOffset) % 2 ^ 32)
      { updateMetaHooks chains under meta k size with
        numEntries := ((updateMetaHooks chains under meta k size).numEntries + 1) % 2 ^ 32 }
      (Nat.mod_lt _ (by norm_num))
    rw [hloop]
    refine ⟨m', ?_, ?_⟩
    · have hno : (encodeEntryOf r).nextOffset = entrySize r := rfl
      rw [hno]
      rfl
    · rw [hnum]
      have hup : (updateMetaHooks chains under meta k size).numEntries = meta.numEntries := rfl
      rw [hup]
      simp only [List.length_cons]
      omega

theorem sizeAfter_sum (rules : List Rule) :
    ∀ s : Nat, s < 2 ^ 32 →
      sizeAfter s rules = (s + (rules.map entrySize).sum) % 2 ^ 32 := by
  induction rules with
  | nil =>
    intro s hs
    simp only [sizeAfter, List.map_nil, List.sum_nil, Nat.add_zero]
    rw [Nat.mod_eq_of_lt hs]
  | cons r rest IH =>
    intro s hs
    simp only [sizeAfter, List.map_cons, List.sum_cons]
    rw [IH _ (Nat.mod_lt _ (by norm_num))]
    omega

theorem convertNetstackToBinary_ok (tablename : List Nat) (tbl : Table)
    (h : tablename.length ≤ XT_TABLE_MAXNAMELEN) :
    ∃ es m, convertNetstackToBinary tablename tbl = some (Except.ok (es, m)) ∧
      es.entrytable = tbl.rules.map encodeEntryOf ∧
      es.size = sizeAfter 0 tbl.rules ∧
      m.size = es.size ∧
      m.numEntries = tbl.rules.length % 2 ^ 32 := by
  unfold convertNetstackToBinary
  rw [if_neg (by simp only [XT_TABLE_MAXNAMELEN] at *; omega)]
  obtain ⟨m', hloop, hnum⟩ := convertLoop_spec tbl.builtinChains tbl.underflows tbl.rules 0 0
    emptyMeta (by norm_num [emptyMeta])
  rw [hloop]
  refine ⟨_, _, rfl, rfl, rfl, rfl, ?_⟩
  simp only []
  rw [hnum]
  have : emptyMeta.numEntries = 0 := rfl
  rw [this, Nat.zero_add]

/-- **C8** — Encoder metadata correctness: `convertNetstackToBinary` never
fails on a table whose name fits the ABI bound; the produced metadata's
entry count equals the number of rules (as a `uint32`) and its size equals
the running byte offset, which is the sum of the emitted entries'
`NextOffset` fields (as a `uint32`); a table with zero rules yields
`NumEntries 0`, `Size 0` and an empty entry sequence. -/
theorem convert_metadata_correct (tablename : List Nat) (tbl : Table)
    (h : tablename.length ≤ XT_TABLE_MAXNAMELEN) :
    ∃ es m, convertNetstackToBinary tablename tbl = some (Except.ok (es, m)) ∧
      m.numEntries = tbl.rules.length % 2 ^ 32 ∧
      m.size = es.size ∧
      m.size = (es.entrytable.map KernelIPTEntry.nextOffset).sum % 2 ^ 32 ∧
      (tbl.rules = [] → m.numEntries = 0 ∧ m.size = 0 ∧ es.entrytable = []) := by
  obtain ⟨es, m, hconv, hentry, hessize, hmsize, hnum⟩ :=
    convertNetstackToBinary_ok tablename tbl h
  refine ⟨es, m, hconv, hnum, hmsize, ?_, ?_⟩
  · rw [hmsize, hessize, sizeAfter_sum tbl.rules 0 (by norm_num), hentry]
    rw [Nat.zero_add, List.map_map]
    have hfun : (KernelIPTEntry.nextOffset ∘ encodeEntryOf) = entrySize :=
      funext (fun r => rfl)
    rw [hfun]
  · intro hnil
    rw [hnil] at hentry hessize hnum
    refine ⟨by simpa using hnum, ?_, by simpa using hentry⟩
    rw [hmsize, hessize]
    rfl

/-- Witness for C8: the encoder on the one-rule table `tbl1` and on the
empty filter table. -/
theorem convert_metadata_correct_witness :
    (∃ es m, convertNetstackToBinary filterName tbl1 = some (Except.ok (es, m)) ∧
      m.numEntries = tbl1.rules.length % 2 ^ 32 ∧
      m.size = es.size ∧
      m.size = (es.entrytable.map KernelIPTEntry.nextOffset).sum % 2 ^ 32 ∧
      (tbl1.rules = [] → m.numEntries = 0 ∧ m.size = 0 ∧ es.entrytable = [])) ∧
    (∃ es m, convertNetstackToBinary filterName EmptyFilterTable =
        some (Except.ok (es, m)) ∧
      m.numEntries = EmptyFilterTable.rules.length % 2 ^ 32 ∧
      m.size = es.size ∧
      m.size = (es.entrytable.map KernelIPTEntry.nextOffset).sum % 2 ^ 32 ∧
      (EmptyFilterTable.rules = [] → m.numEntries = 0 ∧ m.size = 0 ∧
        es.entrytable = [])) :=
  ⟨convert_metadata_correct filterName tbl1 (by decide),
   convert_metadata_correct filterName EmptyFilterTable (by decide)⟩



theorem parseEntryTarget_append (entry : IPTEntry) (filter : IPHeaderFilter)
    (matchers : List Matcher) (rest1 extra : List Nat) (rule : Rule)
    (nextOff : Nat) (rest2 : List Nat)
    (h : parseEntryTarget entry filter matchers rest1 = pok (rule, nextOff, rest2)) :
    parseEntryTarget entry filter matchers (rest1 ++ extra) =
      pok (rule, nextOff, rest2 ++ extra) := by
  obtain ⟨target, hres, hts, hpt⟩ := parseEntryTarget_shape _ _ _ _ _ h
  simp only [Prod.mk.injEq] at hres
  obtain ⟨hrule, hno, hrest⟩ := hres
  unfold parseEntryTarget
  simp only []
  rw [if_neg (by rw [List.length_append]; omega)]
  have h1 : slice (rest1 ++ extra) 0 (sub16 entry.nextOffset entry.targetOffset) =
      some (rest1.take (sub16 entry.nextOffset entry.targetOffset)) := by
    unfold slice
    rw [if_pos ⟨Nat.zero_le _, by rw [List.length_append]; omega⟩]
    rw [List.drop_zero, List.take_append_of_le_length hts]
  rw [h1]
  simp only []
  rw [hpt]
  simp only [pok]
  have h2 : slice (rest1 ++ extra) (sub16 entry.nextOffset entry.targetOffset)
      (rest1 ++ extra).length =
      some (rest1.drop (sub16 entry.nextOffset entry.targetOffset) ++ extra) := by
    unfold slice
    rw [if_pos ⟨by rw [List.length_append]; omega, le_refl _⟩]
    rw [List.take_length, List.drop_append_of_le_length hts]
  rw [h2]
  subst hrule
  subst hno
  subst hrest
  rfl

theorem parseEntryMatchers_append (entry : IPTEntry) (filter : IPHeaderFilter)
    (rest0 extra : List Nat) (rule : Rule) (nextOff : Nat) (rest2 : List Nat)
    (h : parseEntryMatchers entry filter rest0 = pok (rule, nextOff, rest2)) :
    parseEntryMatchers entry filter (rest0 ++ extra) =
      pok (rule, nextOff, rest2 ++ extra) := by
  obtain ⟨hmsz0, ht⟩ := parseEntryMatchers_shape _ _ _ _ h
  unfold parseEntryMatchers
  simp only []
  rw [hmsz0]
  rw [if_neg (Nat.not_lt_zero _)]
  have hsl : slice (rest0 ++ extra) 0 0 = some [] := by
    unfold slice
    rw [if_pos ⟨le_refl _, Nat.zero_le _⟩]
    rfl
  rw [hsl]
  simp only []
  have hpm : parseMatchers unmarshalMatcher filter ([] : List Nat) = pok [] := rfl
  rw [hpm]
  simp only [pok]
  have hsl4 : slice (rest0 ++ extra) 0 (rest0 ++ extra).length =
      some (rest0 ++ extra) := by
    unfold slice
    rw [if_pos ⟨Nat.zero_le _, le_refl _⟩]
    rw [List.take_length, List.drop_zero]
  rw [hsl4]
  simp only []
  exact parseEntryTarget_append _ _ _ _ _ _ _ _ ht

theorem parseEntryHeader_append (entry : IPTEntry) (rest0 extra : List Nat)
    (rule : Rule) (nextOff : Nat) (rest2 : List Nat)
    (h : parseEntryHeader entry rest0 = pok (rule, nextOff, rest2)) :
    parseEntryHeader entry (rest0 ++ extra) = pok (rule, nextOff, rest2 ++ extra) := by
  obtain ⟨hTO, hfil, hm⟩ := parseEntryHeader_shape _ _ _ h
  unfold parseEntryHeader
  rw [if_neg (by omega), hfil]
  simp only []
  exact parseEntryMatchers_append _ _ _ _ _ _ _ hm

theorem parseOneEntry_append (optVal extra : List Nat) (rule : Rule)
    (nextOff : Nat) (rest : List Nat)
    (h : parseOneEntry optVal = pok (rule, nextOff, rest)) :
    parseOneEntry (optVal ++ extra) = pok (rule, nextOff, rest ++ extra) := by
  obtain ⟨hL, hh⟩ := parseOneEntry_shape _ _ h
  unfold parseOneEntry
  rw [if_neg (by rw [List.length_append]; omega)]
  have hsl1 : slice (optVal ++ extra) 0 SizeOfIPTEntry =
      some (optVal.take SizeOfIPTEntry) := by
    unfold slice
    rw [if_pos ⟨Nat.zero_le _, by rw [List.length_append]; omega⟩]
    rw [List.drop_zero, List.take_append_of_le_length hL]
  rw [hsl1]
  simp only []
  have hsl2 : slice (optVal ++ extra) SizeOfIPTEntry (optVal ++ extra).length =
      some (optVal.drop SizeOfIPTEntry ++ extra) := by
    unfold slice
    rw [if_pos ⟨by rw [List.length_append]; omega, le_refl _⟩]
    rw [List.take_length, List.drop_append_of_le_length hL]
  rw [hsl2]
  simp only []
  exact parseEntryHeader_append _ _ _ _ _ _ hh

theorem parseEntries_append :
    ∀ (count : Nat) (optVal : List Nat) (offset : Nat) (rules : List Rule)
      (offsets rem extra : List Nat),
      parseEntries count optVal offset = pok (rules, offsets, rem) →
      parseEntries count (optVal ++ extra) offset =
        pok (rules, offsets, rem ++ extra) := by
  intro count
  induction count with
  | zero =>
    intro optVal offset rules offsets rem extra h
    unfold parseEntries at h ⊢
    simp only [pok, Option.some.injEq, Except.ok.injEq, Prod.mk.injEq] at h
    obtain ⟨h1, h2, h3⟩ := h
    subst h1
    subst h2
    subst h3
    rfl
  | succ n IH =>
    intro optVal offset rules offsets rem extra h
    unfold parseEntries at h ⊢
    cases hone : parseOneEntry optVal with
    | none => rw [hone] at h; simp [pok] at h
    | some r1 =>
      rw [hone] at h
      cases r1 with
      | error e => simp [perr, pok] at h
      | ok v =>
        obtain ⟨rule, nextOff, rest⟩ := v
        simp only [] at h
        cases hrec : parseEntries n rest ((offset + nextOff) % 2 ^ 32) with
        | none => rw [hrec] at h; simp [pok] at h
        | some rr =>
          rw [hrec] at h
          cases rr with
          | error e => simp [perr, pok] at h
          | ok r' =>
            obtain ⟨rules', offsets', rem'⟩ := r'
            simp only [pok, Option.some.injEq, Except.ok.injEq, Prod.mk.injEq] at h
            obtain ⟨h1, h2, h3⟩ := h
            rw [parseOneEntry_append _ extra _ _ _ hone]
            simp only [pok]
            rw [IH _ _ _ _ _ extra hrec]
            simp only [pok]
            subst h1
            subst h2
            subst h3
            rfl

theorem SetEntries_append (b extra : List Nat) (t : Table) (m : Meta)
    (h : SetEntries b = pok (t, m)) : SetEntries (b ++ extra) = pok (t, m) := by
  obtain ⟨hlen, hrest⟩ := SetEntries_success _ _ _ h
  obtain ⟨hname, hm, rules, offsets, rem, t', hpe, hrs, hps⟩ :=
    setEntriesFromReplace_success _ _ _ _ hrest
  unfold SetEntries
  rw [if_neg (by rw [List.length_append]; omega)]
  have hsl1 : slice (b ++ extra) 0 SizeOfIPTReplace =
      some (b.take SizeOfIPTReplace) := by
    unfold slice
    rw [if_pos ⟨Nat.zero_le _, by rw [List.length_append]; omega⟩]
    rw [List.drop_zero, List.take_append_of_le_length hlen]
  rw [hsl1]
  simp only []
  have hsl2 : slice (b ++ extra) SizeOfIPTReplace (b ++ extra).length =
      some (b.drop SizeOfIPTReplace ++ extra) := by
    unfold slice
    rw [if_pos ⟨by rw [List.length_append]; omega, le_refl _⟩]
    rw [List.take_length, List.drop_append_of_le_length hlen]
  rw [hsl2]
  simp only []
  have hpe' := parseEntries_append _ _ _ _ _ _ extra hpe
  have hb := setEntriesFromReplace_build (decodeIPTReplace (b.take SizeOfIPTReplace))
    (b.drop SizeOfIPTReplace ++ extra) rules offsets (rem ++ extra) t' t
    hname hpe' hrs hps
  rw [hb, hm]

theorem setEntriesFromReplace_size (rpl : IPTReplace) (rest : List Nat) (s' : Nat) :
    setEntriesFromReplace { rpl with size := s' } rest =
      decResBind (setEntriesFromReplace rpl rest)
        (fun tm => pok (tm.1, { tm.2 with size := s' })) := by
  cases hr : setEntriesFromReplace rpl rest with
  | none => exact absurd hr (setEntriesFromReplace_no_none _ _)
  | some r =>
    cases r with
    | error e =>
      cases hr' : setEntriesFromReplace { rpl with size := s' } rest with
      | none => exact absurd hr' (setEntriesFromReplace_no_none _ _)
      | some r' =>
        cases r' with
        | error e' =>
          cases e
          cases e'
          rfl
        | ok tm =>
          obtain ⟨t, m⟩ := tm
          obtain ⟨hname, hm, rules, offsets, rem, t', hpe, hrs, hps⟩ :=
            setEntriesFromReplace_success _ _ _ _ hr'
          have hc : setEntriesFromReplace rpl rest = pok (t, metaOfReplace rpl) :=
            setEntriesFromReplace_build rpl rest rules offsets rem t' t
              hname hpe hrs hps
          rw [hr] at hc
          simp [pok] at hc
    | ok tm =>
      obtain ⟨t, m⟩ := tm
      obtain ⟨hname, hm, rules, offsets, rem, t', hpe, hrs, hps⟩ :=
        setEntriesFromReplace_success _ _ _ _ hr
      have hb : setEntriesFromReplace { rpl with size := s' } rest =
          pok (t, metaOfReplace { rpl with size := s' }) :=
        setEntriesFromReplace_build { rpl with size := s' } rest rules offsets rem
          t' t hname hpe hrs hps
      rw [hb]
      subst hm
      rfl

/-- **C10** — Trailing bytes are ignored: `SetEntries` parses exactly the
number of entries declared in the replace header's `NumEntries` field (the
installed table has that many rules), and for any accepted blob appending
arbitrary extra bytes after the last parsed entry yields a blob that is
accepted with the identical table and metadata; the header's declared
total `Size` field is never checked against the buffer: changing it leaves
every outcome of the post-header pipeline unchanged except the recorded
`Meta.size`, which echoes it. -/
theorem setEntries_trailing_bytes :
    (∀ (b : List Nat) (t : Table) (m : Meta), SetEntries b = pok (t, m) →
      t.rules.length = (decodeIPTReplace (b.take SizeOfIPTReplace)).numEntries ∧
      ∀ extra : List Nat, SetEntries (b ++ extra) = pok (t, m)) ∧
    (∀ (rpl : IPTReplace) (rest : List Nat) (s' : Nat),
      setEntriesFromReplace { rpl with size := s' } rest =
        decResBind (setEntriesFromReplace rpl rest)
          (fun tm => pok (tm.1, { tm.2 with size := s' }))) := by
  constructor
  · intro b t m h
    refine ⟨?_, fun extra => SetEntries_append b extra t m h⟩
    obtain ⟨_, _, _, rules, offsets, rem, hpe, hcount, _, _, _, _, htr⟩ :=
      SetEntries_pok_spec _ _ _ h
    rw [htr, hcount]
  · intro rpl rest s'
    exact setEntriesFromReplace_size rpl rest s'

/-- Witness for C10: the accepted blob `blob1` still decodes to the same
table and metadata after three junk bytes are appended. -/
theorem setEntries_trailing_bytes_witness :
    SetEntries blob1 = pok (tbl1, testMeta) ∧
    tbl1.rules.length =
      (decodeIPTReplace (blob1.take SizeOfIPTReplace)).numEntries ∧
    SetEntries (blob1 ++ [1, 2, 3]) = pok (tbl1, testMeta) :=
  ⟨by decide,
   (setEntries_trailing_bytes.1 blob1 tbl1 testMeta (by decide)).1,
   (setEntries_trailing_bytes.1 blob1 tbl1 testMeta (by decide)).2 [1, 2, 3]⟩

end Netfilter
